import Mathlib

/-!
Shallow embedding of the ogemle signaling server (src/server/src/index.ts).

The server keeps three pieces of shared mutable state: a `Map` from client
ids to `Client` records, a FIFO `waitingQueue` of client ids, and aggregate
`stats`.  All mutations happen in event handlers that run to completion on a
single logical thread: the connection handler, the message handlers
(`handleReady`, `handleSignal`, `handleLeave`), the socket close/error
handler (`cleanupClient`), the pong handler, and the periodic heartbeat.

We model client ids as `Nat` (nanoid gives fresh opaque strings; the
`connect` event is guarded so an id in use is never reassigned), the clients
map as an association list in insertion order (JS `Map` iteration order),
and message delivery as an `outbox` trace appended by `send`, which drops
messages to sockets that are not open, exactly as the source's `send` does.
`socket.ping()` calls are recorded in a separate `pings` trace, and
`socket.terminate()` / an observed close of the underlying socket set the
client's `sockOpen` flag to `false`.
-/

namespace Ogemle

/-- `kind` field of a relayed signal payload. -/
inductive SigKind where
  | offer
  | answer
  | ice
deriving DecidableEq, Repr

/-- The opaque `{ kind, data }` payload of a `signal` message.  The relay
never inspects `data`; we model it as an opaque string. -/
structure SignalMessage where
  kind : SigKind
  data : String
deriving DecidableEq, Repr

/-- The `role` field of a `match` message. -/
inductive Role where
  | offerer
  | answerer
deriving DecidableEq, Repr

/-- Outgoing wire messages (the `OutgoingMessage` union), plus nothing else:
`ping` frames are traced separately in `ServerState.pings`. -/
inductive OutMsg where
  | status (message : String)
  | matchMsg (partnerId : Nat) (role : Role)
  | signal (payload : SignalMessage)
  | partnerLeft
  | errorMsg (message : String)
deriving DecidableEq, Repr

/-- Per-connection state (the `Client` interface).  The `id` lives as the
key of the clients association list; `sockOpen` models
`socket.readyState === WebSocket.OPEN`. -/
structure Client where
  sockOpen : Bool
  partnerId : Option Nat
  wantsChat : Bool
  isAlive : Bool
  connectedAt : Nat
  pairedAt : Option Nat
deriving DecidableEq, Repr

/-- A completed conversation record (`ConversationRecord`). -/
structure ConversationRecord where
  duration : Int
  endedAt : Nat
deriving DecidableEq, Repr

/-- The whole shared state of the server: the `clients` map (in insertion
order), the `waitingQueue`, the `stats` object, plus the observable traces
(`outbox` of sent messages, `pings` of heartbeat probes). -/
structure ServerState where
  clients : List (Nat × Client)
  waitingQueue : List Nat
  totalVisitors : Nat
  activeConversations : Int
  conversationHistory : List ConversationRecord
  outbox : List (Nat × OutMsg)
  pings : List Nat
deriving DecidableEq, Repr

/-- `clients.get(cid)` on the association list (first match). -/
def getClient (cs : List (Nat × Client)) (cid : Nat) : Option Client :=
  match cs with
  | [] => none
  | (k, c) :: rest => if k = cid then some c else getClient rest cid

/-- Mutating a client record in place (JS object field assignment is
visible through the map entry holding the reference). -/
def updateClient (cs : List (Nat × Client)) (cid : Nat) (f : Client → Client) :
    List (Nat × Client) :=
  match cs with
  | [] => []
  | (k, c) :: rest =>
      if k = cid then (k, f c) :: rest else (k, c) :: updateClient rest cid f

/-- `clients.delete(cid)` (removes the entry with that key). -/
def deleteClient (cs : List (Nat × Client)) (cid : Nat) : List (Nat × Client) :=
  match cs with
  | [] => []
  | (k, c) :: rest => if k = cid then rest else (k, c) :: deleteClient rest cid

/-- `removeFromQueue`: `indexOf` + `splice(index, 1)` removes the first
occurrence of `cid`, a no-op when absent. -/
def removeFirst (q : List Nat) (cid : Nat) : List Nat :=
  match q with
  | [] => []
  | x :: rest => if x = cid then rest else x :: removeFirst rest cid

/-- `send(client, message)`: delivers iff the recipient's socket is open,
otherwise silently drops. -/
def send (s : ServerState) (cid : Nat) (msg : OutMsg) : ServerState :=
  match getClient s.clients cid with
  | some c => if c.sockOpen then { s with outbox := s.outbox ++ [(cid, msg)] } else s
  | none => s

/-- `connectPair(offerer, answerer)`: sets both sides' `partnerId` /
`wantsChat` / `pairedAt` in one handler step, bumps `activeConversations`,
and notifies both sides (`match` then `status`), offerer first. -/
def connectPair (s : ServerState) (offererId answererId : Nat) (now : Nat) :
    ServerState :=
  let pairWith (other : Nat) (c : Client) : Client :=
    { c with partnerId := some other, wantsChat := false, pairedAt := some now }
  let s := { s with clients := updateClient s.clients offererId (pairWith answererId) }
  let s := { s with clients := updateClient s.clients answererId (pairWith offererId) }
  let s := { s with activeConversations := s.activeConversations + 1 }
  let s := send s offererId (.matchMsg answererId .offerer)
  let s := send s answererId (.matchMsg offererId .answerer)
  let s := send s offererId (.status "Connected! Start your video.")
  send s answererId (.status "Connected! Start your video.")

/-- The `while (waitingQueue.length > 0)` scan of `handleReady`: pop the
head, skip ids that do not resolve to a registered client with an open
socket, stop at the first valid one.  Returns the id found (if any) and the
queue left behind by the scan. -/
def scanQueue (cs : List (Nat × Client)) (q : List Nat) : Option Nat × List Nat :=
  match q with
  | [] => (none, [])
  | pid :: rest =>
      match getClient cs pid with
      | none => scanQueue cs rest
      | some p => if p.sockOpen then (some pid, rest) else scanQueue cs rest

/-- `handleReady(client)`. -/
def handleReady (s : ServerState) (cid : Nat) (now : Nat) : ServerState :=
  match getClient s.clients cid with
  | none => s
  | some c =>
      if c.partnerId.isSome then
        send s cid (.status "Already chatting. Leave to find someone new.")
      else if cid ∈ s.waitingQueue then
        send s cid (.status "Waiting for the next available partner...")
      else
        let cs := updateClient s.clients cid (fun c => { c with wantsChat := true })
        let s := { s with clients := cs }
        match scanQueue s.clients s.waitingQueue with
        | (some pid, rest) => connectPair { s with waitingQueue := rest } cid pid now
        | (none, _) =>
            let s := { s with waitingQueue := [cid] }
            send s cid (.status "Waiting for someone to join...")

/-- `handleLeave(client)`. `now` is `Date.now()` at the time of the call.
The truthiness test `if (client.pairedAt && partner.pairedAt)` is modelled
as both `pairedAt` fields being set (`Date.now()` never returns the falsy
0). -/
def handleLeave (s : ServerState) (cid : Nat) (now : Nat) : ServerState :=
  match getClient s.clients cid with
  | none => s
  | some c =>
      let s := { s with waitingQueue := removeFirst s.waitingQueue cid }
      let s :=
        match c.partnerId with
        | none => s
        | some pid =>
            match getClient s.clients pid with
            | none => s
            | some p =>
                let s :=
                  match c.pairedAt, p.pairedAt with
                  | some ca, some pa =>
                      let record : ConversationRecord :=
                        { duration := Int.fdiv ((now : Int) - ((max ca pa : Nat) : Int)) 1000,
                          endedAt := now }
                      { s with
                        conversationHistory := s.conversationHistory ++ [record],
                        activeConversations := max 0 (s.activeConversations - 1) }
                  | _, _ => s
                let cs := updateClient s.clients pid
                    (fun p => { p with partnerId := none, pairedAt := none })
                let s := { s with clients := cs }
                let s := send s pid .partnerLeft
                send s pid (.status "Partner disconnected.")
      let cs := updateClient s.clients cid
          (fun c => { c with partnerId := none, pairedAt := none, wantsChat := false })
      { s with clients := cs }

/-- `handleSignal(client, payload)`. -/
def handleSignal (s : ServerState) (cid : Nat) (payload : SignalMessage) (now : Nat) :
    ServerState :=
  match getClient s.clients cid with
  | none => s
  | some c =>
      match c.partnerId with
      | none => send s cid (.status "Waiting for a partner before sending media.")
      | some pid =>
          match getClient s.clients pid with
          | none => handleLeave s cid now
          | some _ => send s pid (.signal payload)

/-- `cleanupClient(clientId)`: full teardown then removal from the registry;
idempotent because a missing id is a no-op. -/
def cleanupClient (s : ServerState) (cid : Nat) (now : Nat) : ServerState :=
  match getClient s.clients cid with
  | none => s
  | some _ =>
      let s := handleLeave s cid now
      { s with clients := deleteClient s.clients cid }

/-- The `wss.on('connection')` handler: register a fresh client, count the
visitor, greet it. -/
def connectClient (s : ServerState) (cid : Nat) (now : Nat) : ServerState :=
  let client : Client :=
    { sockOpen := true, partnerId := none, wantsChat := false,
      isAlive := true, connectedAt := now, pairedAt := none }
  let s := { s with clients := s.clients ++ [(cid, client)],
                    totalVisitors := s.totalVisitors + 1 }
  send s cid (.status "Connected to signaling server. Click \"Start\" to find someone.")

/-- One pass of the heartbeat's `for (const [id, client] of clients)` loop
over the ids present when the tick fired (the loop only ever deletes the
entry it is visiting, so iterating a snapshot with a registration guard is
the `Map` iteration).  A dead client is terminated (`socket.terminate()`
closes its socket) and torn down; a live one has `isAlive` reset to `false`
and is pinged — `socket.ping()` is modelled as always succeeding, so the
defensive `catch` arm never runs. -/
def tickLoop (s : ServerState) (ids : List Nat) (now : Nat) : ServerState :=
  match ids with
  | [] => s
  | id :: rest =>
      match getClient s.clients id with
      | none => tickLoop s rest now
      | some c =>
          if c.isAlive then
            let cs := updateClient s.clients id (fun c => { c with isAlive := false })
            let s := { s with clients := cs }
            let s := { s with pings := s.pings ++ [id] }
            tickLoop s rest now
          else
            let cs := updateClient s.clients id (fun c => { c with sockOpen := false })
            let s := cleanupClient { s with clients := cs } id now
            tickLoop s rest now

/-- One firing of the 30-second heartbeat interval. -/
def heartbeatTick (s : ServerState) (now : Nat) : ServerState :=
  tickLoop s (s.clients.map Prod.fst) now

/-- The `socket.on('pong')` handler: mark the client alive. -/
def handlePong (s : ServerState) (cid : Nat) : ServerState :=
  { s with clients := updateClient s.clients cid (fun c => { c with isAlive := true }) }

/-- The underlying transport observing the peer's close frame: the socket
stops being `OPEN` before the `close` callback runs. -/
def markSocketClosing (s : ServerState) (cid : Nat) : ServerState :=
  { s with clients := updateClient s.clients cid (fun c => { c with sockOpen := false }) }

/-- The `socket.on('close')` / `socket.on('error')` handler: the socket is no
longer open, and the client is fully cleaned up. -/
def handleSocketClose (s : ServerState) (cid : Nat) (now : Nat) : ServerState :=
  cleanupClient (markSocketClosing s cid) cid now

/-- The serialized event stream consumed by the server: every handler the
transport or timer can invoke. -/
inductive Event where
  | connect (cid now : Nat)
  | ready (cid now : Nat)
  | signal (cid : Nat) (payload : SignalMessage) (now : Nat)
  | leave (cid now : Nat)
  | sockClose (cid now : Nat)
  | sockClosing (cid : Nat)
  | pong (cid : Nat)
  | tick (now : Nat)
  | badMessage (cid : Nat)
deriving DecidableEq, Repr

/-- Run one handler to completion.  The `connect` guard models nanoid
freshness: an id currently in the registry is never handed out again. -/
def applyEvent (s : ServerState) (e : Event) : ServerState :=
  match e with
  | .connect cid now =>
      if (getClient s.clients cid).isNone then connectClient s cid now else s
  | .ready cid now => handleReady s cid now
  | .signal cid payload now => handleSignal s cid payload now
  | .leave cid now => handleLeave s cid now
  | .sockClose cid now => handleSocketClose s cid now
  | .sockClosing cid => markSocketClosing s cid
  | .pong cid => handlePong s cid
  | .tick now => heartbeatTick s now
  | .badMessage cid => send s cid (.errorMsg "Unknown message type")

/-- The state at server start: empty registry, empty queue, zeroed stats. -/
def initState : ServerState :=
  { clients := [], waitingQueue := [], totalVisitors := 0,
    activeConversations := 0, conversationHistory := [], outbox := [], pings := [] }

/-- States the server can be in after any sequence of handler executions. -/
inductive Reachable : ServerState → Prop where
  | init : Reachable initState
  | step {s : ServerState} (e : Event) : Reachable s → Reachable (applyEvent s e)

/-- The validity check of `handleReady`'s queue scan, and equally the
deliverability check of `send`: the id resolves to a registered client whose
socket is `OPEN`. -/
def validEntry (cs : List (Nat × Client)) (x : Nat) : Bool :=
  match getClient cs x with
  | some c => c.sockOpen
  | none => false

/-- Run a list of events through the server, oldest first. -/
def runEvents (s : ServerState) (es : List Event) : ServerState :=
  es.foldl applyEvent s

/-- Two clients connect and send `ready`; the second `ready` pairs them. -/
def demoPairState : ServerState :=
  runEvents initState [.connect 1 0, .ready 1 0, .connect 2 0, .ready 2 0]

/-- One client connects and sends `ready`; it waits alone in the queue. -/
def demoWaitState : ServerState :=
  runEvents initState [.connect 1 0, .ready 1 0]

/-- Client 1 waits in the queue and client 2 has just connected. -/
def demoReadyState : ServerState :=
  runEvents initState [.connect 1 0, .ready 1 0, .connect 2 0]

/-- A registry for exercising the queue scan: the queue holds a vanished id
(5), an id whose socket is no longer open (7), and a live id (8); client 9
is about to send `ready`. -/
def scanDemoState : ServerState :=
  { clients := [(7, { sockOpen := false, partnerId := none, wantsChat := true, isAlive := true, connectedAt := 0, pairedAt := none }),
                (8, { sockOpen := true, partnerId := none, wantsChat := true, isAlive := true, connectedAt := 0, pairedAt := none }),
                (9, { sockOpen := true, partnerId := none, wantsChat := false, isAlive := true, connectedAt := 0, pairedAt := none })],
    waitingQueue := [5, 7, 8], totalVisitors := 3, activeConversations := 0,
    conversationHistory := [], outbox := [], pings := [] }

/-- A paired couple where client 1 missed the previous heartbeat probe and
client 2 acknowledged it. -/
def heartbeatDemoState : ServerState :=
  { clients := [(1, { sockOpen := true, partnerId := some 2, wantsChat := false, isAlive := false, connectedAt := 0, pairedAt := some 0 }),
                (2, { sockOpen := true, partnerId := some 1, wantsChat := false, isAlive := true, connectedAt := 0, pairedAt := some 0 })],
    waitingQueue := [], totalVisitors := 2, activeConversations := 1,
    conversationHistory := [], outbox := [], pings := [] }

/-- Client 1 holds a partner reference to an id that is no longer in the
registry. -/
def dangleDemoState : ServerState :=
  { clients := [(1, { sockOpen := true, partnerId := some 2, wantsChat := false, isAlive := true, connectedAt := 0, pairedAt := some 0 })],
    waitingQueue := [], totalVisitors := 2, activeConversations := 1,
    conversationHistory := [], outbox := [], pings := [] }

/-! ### Association-list and queue lemmas -/

theorem getClient_updateClient_self (cs : List (Nat × Client)) (cid : Nat)
    (f : Client → Client) :
    getClient (updateClient cs cid f) cid = (getClient cs cid).map f := by
  induction cs with
  | nil => rfl
  | cons hd tl ih =>
      obtain ⟨k, c⟩ := hd
      by_cases hk : k = cid <;> simp [getClient, updateClient, hk, ih]

theorem getClient_updateClient_ne (cs : List (Nat × Client)) (cid d : Nat)
    (f : Client → Client) (h : d ≠ cid) :
    getClient (updateClient cs cid f) d = getClient cs d := by
  induction cs with
  | nil => rfl
  | cons hd tl ih =>
      obtain ⟨k, c⟩ := hd
      by_cases hk : k = cid
      · subst hk
        simp [getClient, updateClient, Ne.symm h]
      · by_cases hd : k = d <;> simp [getClient, updateClient, hk, hd, ih, h]

theorem keys_updateClient (cs : List (Nat × Client)) (cid : Nat) (f : Client → Client) :
    (updateClient cs cid f).map Prod.fst = cs.map Prod.fst := by
  induction cs with
  | nil => rfl
  | cons hd tl ih =>
      obtain ⟨k, c⟩ := hd
      by_cases hk : k = cid <;> simp [updateClient, hk, ih]

theorem getClient_eq_none_iff (cs : List (Nat × Client)) (d : Nat) :
    getClient cs d = none ↔ d ∉ cs.map Prod.fst := by
  induction cs with
  | nil => simp [getClient]
  | cons hd tl ih =>
      obtain ⟨k, c⟩ := hd
      by_cases hk : k = d
      · subst hk
        simp [getClient]
      · simp [getClient, hk, ih, Ne.symm hk]

theorem getClient_deleteClient_ne (cs : List (Nat × Client)) (cid d : Nat) (h : d ≠ cid) :
    getClient (deleteClient cs cid) d = getClient cs d := by
  induction cs with
  | nil => rfl
  | cons hd tl ih =>
      obtain ⟨k, c⟩ := hd
      by_cases hk : k = cid
      · subst hk
        simp [getClient, deleteClient, Ne.symm h]
      · by_cases hd : k = d <;> simp [getClient, deleteClient, hk, hd, ih, h]

theorem deleteClient_sublist (cs : List (Nat × Client)) (cid : Nat) :
    (deleteClient cs cid).Sublist cs := by
  induction cs with
  | nil => simp [deleteClient]
  | cons hd tl ih =>
      obtain ⟨k, c⟩ := hd
      by_cases hk : k = cid
      · simp [deleteClient, hk]
      · simpa [deleteClient, hk] using ih

theorem getClient_deleteClient_self (cs : List (Nat × Client)) (cid : Nat)
    (h : (cs.map Prod.fst).Nodup) :
    getClient (deleteClient cs cid) cid = none := by
  induction cs with
  | nil => rfl
  | cons hd tl ih =>
      obtain ⟨k, c⟩ := hd
      simp only [List.map_cons, List.nodup_cons] at h
      by_cases hk : k = cid
      · subst hk
        simp only [deleteClient, if_pos rfl]
        exact (getClient_eq_none_iff tl k).2 h.1
      · simp [deleteClient, getClient, hk, ih h.2]

theorem getClient_append_of_none (cs₁ cs₂ : List (Nat × Client)) (d : Nat)
    (h : getClient cs₁ d = none) :
    getClient (cs₁ ++ cs₂) d = getClient cs₂ d := by
  induction cs₁ with
  | nil => rfl
  | cons hd tl ih =>
      obtain ⟨k, c⟩ := hd
      by_cases hk : k = d <;> simp_all [getClient, hk]

theorem getClient_append_of_some (cs₁ cs₂ : List (Nat × Client)) (d : Nat) (c : Client)
    (h : getClient cs₁ d = some c) :
    getClient (cs₁ ++ cs₂) d = some c := by
  induction cs₁ with
  | nil => simp [getClient] at h
  | cons hd tl ih =>
      obtain ⟨k, c'⟩ := hd
      by_cases hk : k = d <;> simp_all [getClient, hk]

theorem removeFirst_sublist (q : List Nat) (cid : Nat) :
    (removeFirst q cid).Sublist q := by
  induction q with
  | nil => simp [removeFirst]
  | cons x rest ih =>
      by_cases hx : x = cid
      · simp [removeFirst, hx]
      · simpa [removeFirst, hx] using ih

theorem mem_of_mem_removeFirst {q : List Nat} {cid d : Nat}
    (h : d ∈ removeFirst q cid) : d ∈ q :=
  (removeFirst_sublist q cid).mem h

theorem not_mem_removeFirst {q : List Nat} (cid : Nat) (h : q.Nodup) :
    cid ∉ removeFirst q cid := by
  induction q with
  | nil => simp [removeFirst]
  | cons x rest ih =>
      simp only [List.nodup_cons] at h
      by_cases hx : x = cid
      · subst hx
        simpa [removeFirst] using h.1
      · simpa [removeFirst, hx, Ne.symm hx] using ih h.2

theorem removeFirst_of_not_mem {q : List Nat} {cid : Nat} (h : cid ∉ q) :
    removeFirst q cid = q := by
  induction q with
  | nil => rfl
  | cons x rest ih =>
      simp only [List.mem_cons, not_or] at h
      simp [removeFirst, Ne.symm h.1, ih h.2]

/-! ### `send` only appends to the outbox -/

theorem send_eq (s : ServerState) (cid : Nat) (m : OutMsg) :
    send s cid m =
      { s with outbox := s.outbox ++ if validEntry s.clients cid then [(cid, m)] else [] } := by
  unfold send validEntry
  cases h : getClient s.clients cid with
  | none => simp
  | some c => cases hc : c.sockOpen <;> simp [hc]

theorem send_clients (s : ServerState) (cid : Nat) (m : OutMsg) :
    (send s cid m).clients = s.clients := by rw [send_eq]

theorem send_waitingQueue (s : ServerState) (cid : Nat) (m : OutMsg) :
    (send s cid m).waitingQueue = s.waitingQueue := by rw [send_eq]

theorem send_activeConversations (s : ServerState) (cid : Nat) (m : OutMsg) :
    (send s cid m).activeConversations = s.activeConversations := by rw [send_eq]

theorem send_conversationHistory (s : ServerState) (cid : Nat) (m : OutMsg) :
    (send s cid m).conversationHistory = s.conversationHistory := by rw [send_eq]

/-! ### The queue scan of `handleReady` -/

theorem scanQueue_some (cs : List (Nat × Client)) (q : List Nat) (pid : Nat)
    (rest : List Nat) (h : scanQueue cs q = (some pid, rest)) :
    ∃ pre, q = pre ++ pid :: rest ∧ (∀ x ∈ pre, validEntry cs x = false) ∧
      validEntry cs pid = true := by
  induction q with
  | nil => simp [scanQueue] at h
  | cons x xs ih =>
      rw [scanQueue] at h
      cases hx : getClient cs x with
      | none =>
          simp only [hx] at h
          obtain ⟨pre, hq, hpre, hpid⟩ := ih h
          refine ⟨x :: pre, by simp [hq], ?_, hpid⟩
          intro y hy
          rcases List.mem_cons.1 hy with rfl | hy
          · simp [validEntry, hx]
          · exact hpre y hy
      | some p =>
          simp only [hx] at h
          by_cases hopen : p.sockOpen = true
          · rw [if_pos hopen] at h
            have h1 : some x = some pid := congrArg Prod.fst h
            have h2 : xs = rest := congrArg Prod.snd h
            obtain rfl := Option.some.inj h1
            subst h2
            exact ⟨[], rfl, by simp, by simp [validEntry, hx, hopen]⟩
          · rw [if_neg hopen] at h
            obtain ⟨pre, hq, hpre, hpid⟩ := ih h
            refine ⟨x :: pre, by simp [hq], ?_, hpid⟩
            intro y hy
            rcases List.mem_cons.1 hy with rfl | hy
            · simp [validEntry, hx, hopen]
            · exact hpre y hy

theorem scanQueue_none (cs : List (Nat × Client)) (q : List Nat) (l : List Nat)
    (h : scanQueue cs q = (none, l)) :
    l = [] ∧ ∀ x ∈ q, validEntry cs x = false := by
  induction q with
  | nil =>
      rw [scanQueue] at h
      have h2 : ([] : List Nat) = l := congrArg Prod.snd h
      exact ⟨h2.symm, by simp⟩
  | cons x xs ih =>
      rw [scanQueue] at h
      cases hx : getClient cs x with
      | none =>
          simp only [hx] at h
          obtain ⟨hl, hall⟩ := ih h
          refine ⟨hl, ?_⟩
          intro y hy
          rcases List.mem_cons.1 hy with rfl | hy
          · simp [validEntry, hx]
          · exact hall y hy
      | some p =>
          simp only [hx] at h
          by_cases hopen : p.sockOpen = true
          · rw [if_pos hopen] at h
            exact absurd (congrArg Prod.fst h) (by simp)
          · rw [if_neg hopen] at h
            obtain ⟨hl, hall⟩ := ih h
            refine ⟨hl, ?_⟩
            intro y hy
            rcases List.mem_cons.1 hy with rfl | hy
            · simp [validEntry, hx, hopen]
            · exact hall y hy

/-! ### The pairing/queue invariant -/

/-- Pairing symmetry on a clients map: every registered client with a
partner points at a different, registered client that points back. -/
def SymOK (cs : List (Nat × Client)) : Prop :=
  ∀ cid c pid, getClient cs cid = some c → c.partnerId = some pid →
    pid ≠ cid ∧ ∃ p, getClient cs pid = some p ∧ p.partnerId = some cid

/-- The combined invariant on the mutable components the handlers share:
registry keys are unique, the queue has no duplicates and only holds
registered unpaired ids, pairing is symmetric and never reflexive, and the
active-conversations counter is non-negative. -/
def InvC (cs : List (Nat × Client)) (q : List Nat) (ac : Int) : Prop :=
  (cs.map Prod.fst).Nodup ∧ q.Nodup ∧
  (∀ id ∈ q, ∃ c, getClient cs id = some c ∧ c.partnerId = none) ∧
  SymOK cs ∧ 0 ≤ ac

def Inv (s : ServerState) : Prop :=
  InvC s.clients s.waitingQueue s.activeConversations

theorem symOK_update_preserving {cs : List (Nat × Client)} {cid : Nat}
    {f : Client → Client} (hf : ∀ x, (f x).partnerId = x.partnerId)
    (h : SymOK cs) : SymOK (updateClient cs cid f) := by
  intro d cd pd hget hpd
  by_cases hd : d = cid
  · subst hd
    rw [getClient_updateClient_self] at hget
    cases hc : getClient cs d with
    | none => simp [hc] at hget
    | some c0 =>
        rw [hc] at hget
        obtain rfl := Option.some.inj hget
        rw [hf c0] at hpd
        obtain ⟨hne, p, hp, hpp⟩ := h d c0 pd hc hpd
        exact ⟨hne, p, by rw [getClient_updateClient_ne _ _ _ _ hne, hp], hpp⟩
  · rw [getClient_updateClient_ne _ _ _ _ hd] at hget
    obtain ⟨hne, p, hp, hpp⟩ := h d cd pd hget hpd
    refine ⟨hne, ?_⟩
    by_cases hpc : pd = cid
    · subst hpc
      refine ⟨f p, ?_, ?_⟩
      · rw [getClient_updateClient_self, hp]
        rfl
      · rw [hf p, hpp]
    · exact ⟨p, by rw [getClient_updateClient_ne _ _ _ _ hpc, hp], hpp⟩

theorem symOK_clear_unpaired {cs : List (Nat × Client)} {cid : Nat} {c : Client}
    {f : Client → Client} (hf : ∀ x, (f x).partnerId = none)
    (h : SymOK cs) (hc : getClient cs cid = some c) (hcp : c.partnerId = none) :
    SymOK (updateClient cs cid f) := by
  intro d cd pd hget hpd
  by_cases hd : d = cid
  · subst hd
    rw [getClient_updateClient_self] at hget
    cases hx : getClient cs d with
    | none => simp [hx] at hget
    | some c0 =>
        rw [hx] at hget
        obtain rfl := Option.some.inj hget
        rw [hf c0] at hpd
        exact absurd hpd (by simp)
  · rw [getClient_updateClient_ne _ _ _ _ hd] at hget
    obtain ⟨hne, p, hp, hpp⟩ := h d cd pd hget hpd
    refine ⟨hne, ?_⟩
    by_cases hpc : pd = cid
    · subst hpc
      rw [hp] at hc
      obtain rfl := Option.some.inj hc
      rw [hpp] at hcp
      exact absurd hcp (by simp)
    · exact ⟨p, by rw [getClient_updateClient_ne _ _ _ _ hpc, hp], hpp⟩

theorem symOK_dissolve {cs : List (Nat × Client)} {cid pid : Nat} {c : Client}
    {fp fc : Client → Client}
    (hfp : ∀ x, (fp x).partnerId = none) (hfc : ∀ x, (fc x).partnerId = none)
    (h : SymOK cs) (hc : getClient cs cid = some c) (hcp : c.partnerId = some pid) :
    SymOK (updateClient (updateClient cs pid fp) cid fc) := by
  obtain ⟨hne, p, hp, hpp⟩ := h cid c pid hc hcp
  intro d cd pd hget hpd
  by_cases hdc : d = cid
  · subst hdc
    rw [getClient_updateClient_self] at hget
    cases hx : getClient (updateClient cs pid fp) d with
    | none => simp [hx] at hget
    | some c0 =>
        rw [hx] at hget
        obtain rfl := Option.some.inj hget
        rw [hfc c0] at hpd
        exact absurd hpd (by simp)
  · rw [getClient_updateClient_ne _ _ _ _ hdc] at hget
    by_cases hdp : d = pid
    · subst hdp
      rw [getClient_updateClient_self] at hget
      cases hx : getClient cs d with
      | none => simp [hx] at hget
      | some c0 =>
          rw [hx] at hget
          obtain rfl := Option.some.inj hget
          rw [hfp c0] at hpd
          exact absurd hpd (by simp)
    · rw [getClient_updateClient_ne _ _ _ _ hdp] at hget
      obtain ⟨hned, q, hq, hqq⟩ := h d cd pd hget hpd
      refine ⟨hned, ?_⟩
      by_cases hpc : pd = cid
      · subst hpc
        rw [hq] at hc
        obtain rfl := Option.some.inj hc
        rw [hqq] at hcp
        obtain rfl := Option.some.inj hcp
        exact absurd rfl hdp
      · by_cases hppid : pd = pid
        · subst hppid
          rw [hq] at hp
          obtain rfl := Option.some.inj hp
          rw [hqq] at hpp
          obtain rfl := Option.some.inj hpp
          exact absurd rfl hdc
        · refine ⟨q, ?_, hqq⟩
          rw [getClient_updateClient_ne _ _ _ _ hpc,
            getClient_updateClient_ne _ _ _ _ hppid, hq]

theorem symOK_form {cs : List (Nat × Client)} {cid pid : Nat} {c p : Client}
    {f g : Client → Client}
    (hf : ∀ x, (f x).partnerId = some pid) (hg : ∀ x, (g x).partnerId = some cid)
    (h : SymOK cs) (hc : getClient cs cid = some c) (hcp : c.partnerId = none)
    (hp : getClient cs pid = some p) (hpp : p.partnerId = none) (hne : pid ≠ cid) :
    SymOK (updateClient (updateClient cs cid f) pid g) := by
  intro d cd pd hget hpd
  by_cases hdp : d = pid
  · subst hdp
    rw [getClient_updateClient_self, getClient_updateClient_ne _ _ _ _ hne, hp] at hget
    obtain rfl := Option.some.inj hget
    rw [hg p] at hpd
    obtain rfl := Option.some.inj hpd
    refine ⟨Ne.symm hne, f c, ?_, hf c⟩
    rw [getClient_updateClient_ne _ _ _ _ (Ne.symm hne), getClient_updateClient_self, hc]
    rfl
  · rw [getClient_updateClient_ne _ _ _ _ hdp] at hget
    by_cases hdc : d = cid
    · subst hdc
      rw [getClient_updateClient_self, hc] at hget
      obtain rfl := Option.some.inj hget
      rw [hf c] at hpd
      obtain rfl := Option.some.inj hpd
      refine ⟨hne, g p, ?_, hg p⟩
      rw [getClient_updateClient_self, getClient_updateClient_ne _ _ _ _ hne, hp]
      rfl
    · rw [getClient_updateClient_ne _ _ _ _ hdc] at hget
      obtain ⟨hned, q, hq, hqq⟩ := h d cd pd hget hpd
      by_cases hpc : pd = cid
      · subst hpc
        rw [hq] at hc
        obtain rfl := Option.some.inj hc
        rw [hqq] at hcp
        exact absurd hcp (by simp)
      · by_cases hppid : pd = pid
        · subst hppid
          rw [hq] at hp
          obtain rfl := Option.some.inj hp
          rw [hqq] at hpp
          exact absurd hpp (by simp)
        · refine ⟨hned, q, ?_, hqq⟩
          rw [getClient_updateClient_ne _ _ _ _ hppid,
            getClient_updateClient_ne _ _ _ _ hpc, hq]

theorem queueMem_update_preserving {cs : List (Nat × Client)} {cid : Nat}
    {f : Client → Client} {q : List Nat} (hf : ∀ x, (f x).partnerId = x.partnerId)
    (hq : ∀ id ∈ q, ∃ c, getClient cs id = some c ∧ c.partnerId = none) :
    ∀ id ∈ q, ∃ c, getClient (updateClient cs cid f) id = some c ∧ c.partnerId = none := by
  intro id hid
  obtain ⟨c, hget, hnone⟩ := hq id hid
  by_cases h : id = cid
  · subst h
    exact ⟨f c, by rw [getClient_updateClient_self, hget]; rfl, by rw [hf c, hnone]⟩
  · exact ⟨c, by rw [getClient_updateClient_ne _ _ _ _ h, hget], hnone⟩

theorem inv_send {s : ServerState} (cid : Nat) (m : OutMsg) (h : Inv s) :
    Inv (send s cid m) := by
  rw [send_eq]
  exact h

theorem inv_update_preserving {s : ServerState} {cid : Nat} {f : Client → Client}
    (hf : ∀ x, (f x).partnerId = x.partnerId) (h : Inv s) :
    Inv { s with clients := updateClient s.clients cid f } := by
  obtain ⟨h1, h2, h3, h4, h5⟩ := h
  exact ⟨by rw [keys_updateClient]; exact h1, h2,
    queueMem_update_preserving hf h3, symOK_update_preserving hf h4, h5⟩

theorem getClient_append_singleton_cases {cs : List (Nat × Client)} {cid d : Nat}
    {c0 cd : Client} (h : getClient (cs ++ [(cid, c0)]) d = some cd) :
    getClient cs d = some cd ∨ (getClient cs d = none ∧ d = cid ∧ cd = c0) := by
  cases hx : getClient cs d with
  | some c =>
      rw [getClient_append_of_some _ _ _ _ hx] at h
      exact Or.inl h
  | none =>
      rw [getClient_append_of_none _ _ _ hx] at h
      by_cases hd : d = cid
      · subst hd
        simp only [getClient, if_pos rfl] at h
        exact Or.inr ⟨rfl, rfl, (Option.some.inj h).symm⟩
      · simp only [getClient, if_neg (fun e : cid = d => hd e.symm)] at h
        exact absurd h (by simp)

theorem inv_connectClient {s : ServerState} {cid : Nat} (now : Nat)
    (h : Inv s) (hfresh : getClient s.clients cid = none) :
    Inv (connectClient s cid now) := by
  obtain ⟨h1, h2, h3, h4, h5⟩ := h
  rw [connectClient, send_eq]
  refine ⟨?_, h2, ?_, ?_, h5⟩
  · simp only [List.map_append, List.map_cons, List.map_nil]
    rw [List.nodup_append]
    exact ⟨h1, List.nodup_singleton _, by
      intro a ha hb
      simp only [List.mem_singleton] at hb
      subst hb
      exact (getClient_eq_none_iff s.clients a).1 hfresh ha⟩
  · intro id hid
    obtain ⟨c, hget, hnone⟩ := h3 id hid
    exact ⟨c, getClient_append_of_some _ _ _ _ hget, hnone⟩
  · intro d cd pd hget hpd
    rcases getClient_append_singleton_cases hget with hold | ⟨_, _, rfl⟩
    · obtain ⟨hne, p, hp, hpp⟩ := h4 d cd pd hold hpd
      exact ⟨hne, p, getClient_append_of_some _ _ _ _ hp, hpp⟩
    · exact absurd hpd (by simp)

theorem inv_connectPair {s : ServerState} {cid pid : Nat} (now : Nat) {c p : Client}
    (h : Inv s)
    (hc : getClient s.clients cid = some c) (hcp : c.partnerId = none)
    (hp : getClient s.clients pid = some p) (hpp : p.partnerId = none)
    (hne : pid ≠ cid) (hcq : cid ∉ s.waitingQueue) (hpq : pid ∉ s.waitingQueue) :
    Inv (connectPair s cid pid now) := by
  obtain ⟨h1, h2, h3, h4, h5⟩ := h
  rw [connectPair]
  simp only [send_eq]
  refine ⟨by rw [keys_updateClient, keys_updateClient]; exact h1, h2, ?_, ?_, ?_⟩
  · intro id hid
    obtain ⟨ci, hget, hnone⟩ := h3 id hid
    have hic : id ≠ cid := fun e => hcq (e ▸ hid)
    have hip : id ≠ pid := fun e => hpq (e ▸ hid)
    exact ⟨ci, by rw [getClient_updateClient_ne _ _ _ _ hip,
      getClient_updateClient_ne _ _ _ _ hic, hget], hnone⟩
  · exact symOK_form (fun x => rfl) (fun x => rfl) h4 hc hcp hp hpp hne
  · show (0 : Int) ≤ s.activeConversations + 1
    omega

theorem getClient_dissolve_self {X : List (Nat × Client)} {cid : Nat} (pid : Nat)
    {c : Client} (hX : getClient X cid = some c) :
    getClient (updateClient (updateClient X pid
        (fun p => { p with partnerId := none, pairedAt := none })) cid
        (fun x => { x with partnerId := none, pairedAt := none, wantsChat := false })) cid
      = some { c with partnerId := none, pairedAt := none, wantsChat := false } := by
  by_cases hip : pid = cid
  · subst hip
    rw [getClient_updateClient_self, getClient_updateClient_self, hX]
    rfl
  · rw [getClient_updateClient_self, getClient_updateClient_ne _ _ _ _ (Ne.symm hip), hX]
    rfl

theorem inv_dissolve_core {s : ServerState} {cid pid : Nat} {c : Client}
    (h : Inv s) (hc : getClient s.clients cid = some c) (hcp : c.partnerId = some pid)
    {ac : Int} (hac : 0 ≤ ac) {tv : Nat} {hist : List ConversationRecord}
    {ob : List (Nat × OutMsg)} {pg : List Nat} :
    Inv { clients := updateClient (updateClient s.clients pid
            (fun p => { p with partnerId := none, pairedAt := none })) cid
            (fun c => { c with partnerId := none, pairedAt := none, wantsChat := false }),
          waitingQueue := removeFirst s.waitingQueue cid,
          totalVisitors := tv, activeConversations := ac,
          conversationHistory := hist, outbox := ob, pings := pg } := by
  obtain ⟨h1, h2, h3, h4, h5⟩ := h
  refine ⟨by rw [keys_updateClient, keys_updateClient]; exact h1,
    List.Nodup.sublist (removeFirst_sublist _ _) h2, ?_,
    symOK_dissolve (fun x => rfl) (fun x => rfl) h4 hc hcp, hac⟩
  intro id hid
  obtain ⟨ci, hg, hn⟩ := h3 id (mem_of_mem_removeFirst hid)
  by_cases hic : id = cid
  · subst hic
    refine ⟨{ ci with partnerId := none, pairedAt := none, wantsChat := false },
      getClient_dissolve_self pid hg, rfl⟩
  · by_cases hip : id = pid
    · subst hip
      refine ⟨{ ci with partnerId := none, pairedAt := none }, ?_, rfl⟩
      rw [getClient_updateClient_ne _ _ _ _ hic, getClient_updateClient_self, hg]
      rfl
    · exact ⟨ci, by rw [getClient_updateClient_ne _ _ _ _ hic,
        getClient_updateClient_ne _ _ _ _ hip, hg], hn⟩

theorem inv_handleLeave (now : Nat) {s : ServerState} {cid : Nat} (h : Inv s) :
    Inv (handleLeave s cid now) := by
  cases hc : getClient s.clients cid with
  | none => simpa [handleLeave, hc] using h
  | some c =>
      cases hcp : c.partnerId with
      | none =>
          simp only [handleLeave, hc, hcp]
          obtain ⟨h1, h2, h3, h4, h5⟩ := h
          refine ⟨by rw [keys_updateClient]; exact h1,
            List.Nodup.sublist (removeFirst_sublist _ _) h2, ?_,
            symOK_clear_unpaired (fun x => rfl) h4 hc hcp, h5⟩
          intro id hid
          obtain ⟨ci, hg, hn⟩ := h3 id (mem_of_mem_removeFirst hid)
          by_cases hic : id = cid
          · subst hic
            exact ⟨_, by rw [getClient_updateClient_self, hg]; rfl, rfl⟩
          · exact ⟨ci, by rw [getClient_updateClient_ne _ _ _ _ hic, hg], hn⟩
      | some pid =>
          cases hp : getClient s.clients pid with
          | none =>
              obtain ⟨_, p, hple, _⟩ := h.2.2.2.1 cid c pid hc hcp
              rw [hp] at hple
              exact absurd hple (by simp)
          | some p =>
              have hne : pid ≠ cid := (h.2.2.2.1 cid c pid hc hcp).1
              cases hca : c.pairedAt with
              | none =>
                  simp only [handleLeave, hc, hcp, hp, hca, send_eq]
                  exact inv_dissolve_core h hc hcp h.2.2.2.2
              | some ca =>
                  cases hpa : p.pairedAt with
                  | none =>
                      simp only [handleLeave, hc, hcp, hp, hca, hpa, send_eq]
                      exact inv_dissolve_core h hc hcp h.2.2.2.2
                  | some pa =>
                      simp only [handleLeave, hc, hcp, hp, hca, hpa, send_eq]
                      exact inv_dissolve_core h hc hcp (le_max_left 0 _)

theorem handleLeave_getClient_self (now : Nat) {s : ServerState} {cid : Nat} {c : Client}
    (hc : getClient s.clients cid = some c) :
    ∃ c', getClient (handleLeave s cid now).clients cid = some c' ∧
      c'.partnerId = none ∧ c'.pairedAt = none ∧ c'.wantsChat = false ∧
      c'.sockOpen = c.sockOpen ∧ c'.isAlive = c.isAlive := by
  cases hcp : c.partnerId with
  | none =>
      simp only [handleLeave, hc, hcp]
      refine ⟨{ c with partnerId := none, pairedAt := none, wantsChat := false },
        ?_, rfl, rfl, rfl, rfl, rfl⟩
      rw [getClient_updateClient_self, hc]
      rfl
  | some pid =>
      cases hp : getClient s.clients pid with
      | none =>
          simp only [handleLeave, hc, hcp, hp]
          refine ⟨{ c with partnerId := none, pairedAt := none, wantsChat := false },
            ?_, rfl, rfl, rfl, rfl, rfl⟩
          rw [getClient_updateClient_self, hc]
          rfl
      | some p =>
          cases hca : c.pairedAt with
          | none =>
              simp only [handleLeave, hc, hcp, hp, hca, send_eq]
              exact ⟨{ c with partnerId := none, pairedAt := none, wantsChat := false },
                getClient_dissolve_self pid hc, rfl, rfl, rfl, rfl, rfl⟩
          | some ca =>
              cases hpa : p.pairedAt with
              | none =>
                  simp only [handleLeave, hc, hcp, hp, hca, hpa, send_eq]
                  exact ⟨{ c with partnerId := none, pairedAt := none, wantsChat := false },
                    getClient_dissolve_self pid hc, rfl, rfl, rfl, rfl, rfl⟩
              | some pa =>
                  simp only [handleLeave, hc, hcp, hp, hca, hpa, send_eq]
                  exact ⟨{ c with partnerId := none, pairedAt := none, wantsChat := false },
                    getClient_dissolve_self pid hc, rfl, rfl, rfl, rfl, rfl⟩

theorem handleLeave_waitingQueue (now : Nat) {s : ServerState} {cid : Nat} {c : Client}
    (hc : getClient s.clients cid = some c) :
    (handleLeave s cid now).waitingQueue = removeFirst s.waitingQueue cid := by
  cases hcp : c.partnerId with
  | none => simp only [handleLeave, hc, hcp]
  | some pid =>
      cases hp : getClient s.clients pid with
      | none => simp only [handleLeave, hc, hcp, hp]
      | some p =>
          cases hca : c.pairedAt with
          | none => simp only [handleLeave, hc, hcp, hp, hca, send_eq]
          | some ca =>
              cases hpa : p.pairedAt with
              | none => simp only [handleLeave, hc, hcp, hp, hca, hpa, send_eq]
              | some pa => simp only [handleLeave, hc, hcp, hp, hca, hpa, send_eq]

theorem inv_cleanupClient (now : Nat) {s : ServerState} {cid : Nat} (h : Inv s) :
    Inv (cleanupClient s cid now) := by
  cases hc : getClient s.clients cid with
  | none => simpa [cleanupClient, hc] using h
  | some c =>
      have h' : Inv (handleLeave s cid now) := inv_handleLeave now h
      obtain ⟨c', hg', hp', _, _, _, _⟩ := handleLeave_getClient_self now hc
      have hqeq := handleLeave_waitingQueue now hc
      simp only [cleanupClient, hc]
      obtain ⟨h1, h2, h3, h4, h5⟩ := h'
      refine ⟨?_, h2, ?_, ?_, h5⟩
      · exact List.Nodup.sublist (List.Sublist.map Prod.fst (deleteClient_sublist _ _)) h1
      · intro id hid
        have hidc : id ≠ cid := by
          intro e
          subst e
          rw [hqeq] at hid
          exact not_mem_removeFirst id h.2.1 hid
        obtain ⟨ci, hg, hn⟩ := h3 id hid
        exact ⟨ci, by rw [getClient_deleteClient_ne _ _ _ hidc, hg], hn⟩
      · intro d cd pd hget hpd
        by_cases hdc : d = cid
        · subst hdc
          rw [getClient_deleteClient_self _ _ h1] at hget
          exact absurd hget (by simp)
        · rw [getClient_deleteClient_ne _ _ _ hdc] at hget
          obtain ⟨hned, q, hq, hqq⟩ := h4 d cd pd hget hpd
          by_cases hpc : pd = cid
          · subst hpc
            rw [hq] at hg'
            obtain rfl := Option.some.inj hg'
            rw [hqq] at hp'
            exact absurd hp' (by simp)
          · exact ⟨hned, q, by rw [getClient_deleteClient_ne _ _ _ hpc, hq], hqq⟩

theorem inv_handleReady (now : Nat) {s : ServerState} {cid : Nat} (h : Inv s) :
    Inv (handleReady s cid now) := by
  cases hc : getClient s.clients cid with
  | none => simpa [handleReady, hc] using h
  | some c =>
      cases hcp : c.partnerId with
      | some pid0 =>
          simp only [handleReady, hc, hcp, Option.isSome_some, if_pos]
          exact inv_send _ _ h
      | none =>
          by_cases hq : cid ∈ s.waitingQueue
          · simp only [handleReady, hc, hcp, Option.isSome_none, Bool.false_eq_true,
              if_false, if_pos hq]
            exact inv_send _ _ h
          · simp only [handleReady, hc, hcp, Option.isSome_none, Bool.false_eq_true,
              if_false, if_neg hq]
            have hInv1 : Inv { s with clients := updateClient s.clients cid (fun c => { c with wantsChat := true }) } :=
              inv_update_preserving (fun x => rfl) h
            cases hscan : scanQueue
                (updateClient s.clients cid (fun c => { c with wantsChat := true }))
                s.waitingQueue with
            | mk found rest =>
                cases found with
                | none =>
                    obtain ⟨h1, h2, h3, h4, h5⟩ := hInv1
                    refine inv_send _ _ ⟨h1, List.nodup_singleton _, ?_, h4, h5⟩
                    intro id hid
                    rw [List.mem_singleton] at hid
                    subst hid
                    refine ⟨{ c with wantsChat := true }, ?_, hcp⟩
                    rw [getClient_updateClient_self, hc]
                    rfl
                | some pid =>
                    obtain ⟨pre, hqeq, hpre, hvalid⟩ := scanQueue_some _ _ _ _ hscan
                    have hpidq : pid ∈ s.waitingQueue := by
                      rw [hqeq]
                      exact List.mem_append_right _ (List.mem_cons_self _ _)
                    have hpidc : pid ≠ cid := fun e => hq (e ▸ hpidq)
                    obtain ⟨p0, hgp, hpn⟩ := h.2.2.1 pid hpidq
                    have hnodup' : (pid :: rest).Nodup := by
                      have := h.2.1
                      rw [hqeq] at this
                      exact this.of_append_right
                    refine inv_connectPair now (c := { c with wantsChat := true })
                      (p := p0) ?_ ?_ hcp ?_ hpn hpidc ?_ ?_
                    · obtain ⟨h1, h2, h3, h4, h5⟩ := hInv1
                      refine ⟨h1, (List.nodup_cons.1 hnodup').2, ?_, h4, h5⟩
                      intro id hid
                      have hidq : id ∈ s.waitingQueue := by
                        rw [hqeq]
                        exact List.mem_append_right _ (List.mem_cons_of_mem _ hid)
                      exact queueMem_update_preserving
                        (f := fun c => { c with wantsChat := true })
                        (fun x => rfl) h.2.2.1 id hidq
                    · show getClient (updateClient s.clients cid _) cid = _
                      rw [getClient_updateClient_self, hc]
                      rfl
                    · show getClient (updateClient s.clients cid _) pid = _
                      rw [getClient_updateClient_ne _ _ _ _ hpidc, hgp]
                    · show cid ∉ rest
                      intro hmem
                      exact hq (by
                        rw [hqeq]
                        exact List.mem_append_right _ (List.mem_cons_of_mem _ hmem))
                    · exact (List.nodup_cons.1 hnodup').1

theorem inv_handleSignal (payload : SignalMessage) (now : Nat) {s : ServerState}
    {cid : Nat} (h : Inv s) : Inv (handleSignal s cid payload now) := by
  cases hc : getClient s.clients cid with
  | none => simpa [handleSignal, hc] using h
  | some c =>
      cases hcp : c.partnerId with
      | none =>
          simp only [handleSignal, hc, hcp]
          exact inv_send _ _ h
      | some pid =>
          cases hp : getClient s.clients pid with
          | none =>
              simp only [handleSignal, hc, hcp, hp]
              exact inv_handleLeave now h
          | some p =>
              simp only [handleSignal, hc, hcp, hp]
              exact inv_send _ _ h

theorem inv_tickLoop (ids : List Nat) (now : Nat) :
    ∀ {s : ServerState}, Inv s → Inv (tickLoop s ids now) := by
  induction ids with
  | nil => intro s h; simpa [tickLoop] using h
  | cons id rest ih =>
      intro s h
      cases hc : getClient s.clients id with
      | none =>
          simp only [tickLoop, hc]
          exact ih h
      | some c =>
          cases hal : c.isAlive with
          | true =>
              simp only [tickLoop, hc, hal, if_pos]
              exact ih (inv_update_preserving (fun x => rfl) h)
          | false =>
              simp only [tickLoop, hc, hal, Bool.false_eq_true, if_false]
              exact ih (inv_cleanupClient now (inv_update_preserving (fun x => rfl) h))

theorem inv_applyEvent (e : Event) {s : ServerState} (h : Inv s) :
    Inv (applyEvent s e) := by
  cases e with
  | connect cid now =>
      simp only [applyEvent]
      by_cases hf : (getClient s.clients cid).isNone = true
      · rw [if_pos hf]
        exact inv_connectClient now h (Option.isNone_iff_eq_none.1 hf)
      · rw [if_neg hf]
        exact h
  | ready cid now => exact inv_handleReady now h
  | signal cid payload now => exact inv_handleSignal payload now h
  | leave cid now => exact inv_handleLeave now h
  | sockClose cid now => exact inv_cleanupClient now (inv_update_preserving (fun x => rfl) h)
  | sockClosing cid => exact inv_update_preserving (fun x => rfl) h
  | pong cid => exact inv_update_preserving (fun x => rfl) h
  | tick now => exact inv_tickLoop _ now h
  | badMessage cid => exact inv_send _ _ h

theorem reachable_inv {s : ServerState} (h : Reachable s) : Inv s := by
  induction h with
  | init =>
      refine ⟨List.nodup_nil, List.nodup_nil, ?_, ?_, le_refl 0⟩
      · intro id hid
        exact absurd hid (List.not_mem_nil id)
      · intro a b c hg
        simp [initState, getClient] at hg
  | step e hr ih => exact inv_applyEvent e ih

/-! ### Frame lemmas for teardown and the heartbeat -/

theorem getClient_updateClient_none {cs : List (Nat × Client)} {cid : Nat} (d : Nat)
    (f : Client → Client) (h : getClient cs cid = none) :
    getClient (updateClient cs d f) cid = none := by
  by_cases hd : cid = d
  · subst hd
    rw [getClient_updateClient_self, h]
    rfl
  · rw [getClient_updateClient_ne _ _ _ _ hd]
    exact h

theorem getClient_updateClient_fields {cs : List (Nat × Client)} {cid : Nat} (d : Nat)
    {c : Client} {f : Client → Client} (hc : getClient cs cid = some c)
    (hA : ∀ x, (f x).isAlive = x.isAlive) (hO : ∀ x, (f x).sockOpen = x.sockOpen) :
    ∃ c', getClient (updateClient cs d f) cid = some c' ∧
      c'.isAlive = c.isAlive ∧ c'.sockOpen = c.sockOpen := by
  by_cases hd : cid = d
  · subst hd
    exact ⟨f c, by rw [getClient_updateClient_self, hc]; rfl, hA c, hO c⟩
  · exact ⟨c, by rw [getClient_updateClient_ne _ _ _ _ hd]; exact hc, rfl, rfl⟩

theorem handleLeave_pings (d now : Nat) (s : ServerState) :
    (handleLeave s d now).pings = s.pings := by
  cases hd : getClient s.clients d with
  | none => simp only [handleLeave, hd]
  | some cd =>
      cases hdp : cd.partnerId with
      | none => simp only [handleLeave, hd, hdp]
      | some pd =>
          cases hp2 : getClient s.clients pd with
          | none => simp only [handleLeave, hd, hdp, hp2]
          | some pp =>
              cases hca : cd.pairedAt with
              | none => simp only [handleLeave, hd, hdp, hp2, hca, send_eq]
              | some ca =>
                  cases hpa : pp.pairedAt with
                  | none => simp only [handleLeave, hd, hdp, hp2, hca, hpa, send_eq]
                  | some pa => simp only [handleLeave, hd, hdp, hp2, hca, hpa, send_eq]

theorem handleLeave_keys (d now : Nat) (s : ServerState) :
    ((handleLeave s d now).clients).map Prod.fst = s.clients.map Prod.fst := by
  cases hd : getClient s.clients d with
  | none => simp only [handleLeave, hd]
  | some cd =>
      cases hdp : cd.partnerId with
      | none => simp only [handleLeave, hd, hdp, keys_updateClient]
      | some pd =>
          cases hp2 : getClient s.clients pd with
          | none => simp only [handleLeave, hd, hdp, hp2, keys_updateClient]
          | some pp =>
              cases hca : cd.pairedAt with
              | none =>
                  simp only [handleLeave, hd, hdp, hp2, hca, send_eq, keys_updateClient]
              | some ca =>
                  cases hpa : pp.pairedAt with
                  | none =>
                      simp only [handleLeave, hd, hdp, hp2, hca, hpa, send_eq,
                        keys_updateClient]
                  | some pa =>
                      simp only [handleLeave, hd, hdp, hp2, hca, hpa, send_eq,
                        keys_updateClient]

theorem handleLeave_outbox_mono (d now : Nat) (s : ServerState) :
    ∃ l, (handleLeave s d now).outbox = s.outbox ++ l := by
  cases hd : getClient s.clients d with
  | none => exact ⟨[], by simp only [handleLeave, hd, List.append_nil]⟩
  | some cd =>
      cases hdp : cd.partnerId with
      | none => exact ⟨[], by simp only [handleLeave, hd, hdp, List.append_nil]⟩
      | some pd =>
          cases hp2 : getClient s.clients pd with
          | none => exact ⟨[], by simp only [handleLeave, hd, hdp, hp2, List.append_nil]⟩
          | some pp =>
              cases hca : cd.pairedAt with
              | none =>
                  exact ⟨_, by
                    simp only [handleLeave, hd, hdp, hp2, hca, send_eq, List.append_assoc]
                    rfl⟩
              | some ca =>
                  cases hpa : pp.pairedAt with
                  | none =>
                      exact ⟨_, by
                        simp only [handleLeave, hd, hdp, hp2, hca, hpa, send_eq,
                          List.append_assoc]
                        rfl⟩
                  | some pa =>
                      exact ⟨_, by
                        simp only [handleLeave, hd, hdp, hp2, hca, hpa, send_eq,
                          List.append_assoc]
                        rfl⟩

theorem cleanupClient_pings (d now : Nat) (s : ServerState) :
    (cleanupClient s d now).pings = s.pings := by
  cases hd : getClient s.clients d with
  | none => simp only [cleanupClient, hd]
  | some cd =>
      simp only [cleanupClient, hd]
      exact handleLeave_pings d now s

theorem cleanupClient_keys_sublist (d now : Nat) (s : ServerState) :
    ((cleanupClient s d now).clients.map Prod.fst).Sublist (s.clients.map Prod.fst) := by
  cases hd : getClient s.clients d with
  | none =>
      simp only [cleanupClient, hd]
      exact List.Sublist.refl _
  | some cd =>
      simp only [cleanupClient, hd]
      calc ((deleteClient (handleLeave s d now).clients d).map Prod.fst).Sublist
            ((handleLeave s d now).clients.map Prod.fst) :=
              List.Sublist.map _ (deleteClient_sublist _ _)
        _ = s.clients.map Prod.fst := handleLeave_keys d now s

theorem cleanupClient_outbox_mono (d now : Nat) (s : ServerState) :
    ∃ l, (cleanupClient s d now).outbox = s.outbox ++ l := by
  cases hd : getClient s.clients d with
  | none => exact ⟨[], by simp only [cleanupClient, hd, List.append_nil]⟩
  | some cd =>
      obtain ⟨l, hl⟩ := handleLeave_outbox_mono d now s
      exact ⟨l, by simp only [cleanupClient, hd]; exact hl⟩

theorem cleanupClient_no_new (d now : Nat) {s : ServerState} {cid : Nat}
    (h : getClient s.clients cid = none) :
    getClient (cleanupClient s d now).clients cid = none := by
  rw [getClient_eq_none_iff] at h ⊢
  intro hmem
  exact h ((cleanupClient_keys_sublist d now s).mem hmem)

theorem handleLeave_fields (d now : Nat) {s : ServerState} {cid : Nat} {c : Client}
    (hc : getClient s.clients cid = some c) :
    ∃ c', getClient (handleLeave s d now).clients cid = some c' ∧
      c'.isAlive = c.isAlive ∧ c'.sockOpen = c.sockOpen := by
  cases hd : getClient s.clients d with
  | none => exact ⟨c, by simp only [handleLeave, hd]; exact hc, rfl, rfl⟩
  | some cd =>
      cases hdp : cd.partnerId with
      | none =>
          simp only [handleLeave, hd, hdp]
          exact getClient_updateClient_fields d hc (fun x => rfl) (fun x => rfl)
      | some pd =>
          cases hp2 : getClient s.clients pd with
          | none =>
              simp only [handleLeave, hd, hdp, hp2]
              exact getClient_updateClient_fields d hc (fun x => rfl) (fun x => rfl)
          | some pp =>
              have two : ∀ X : List (Nat × Client), getClient X cid = some c →
                  ∃ c', getClient (updateClient
                      (updateClient X pd (fun p => { p with partnerId := none, pairedAt := none }))
                      d
                      (fun x => { x with partnerId := none, pairedAt := none, wantsChat := false }))
                      cid = some c' ∧
                    c'.isAlive = c.isAlive ∧ c'.sockOpen = c.sockOpen := by
                intro X hX
                obtain ⟨c1, h1, hA1, hO1⟩ := getClient_updateClient_fields
                  (f := fun p => { p with partnerId := none, pairedAt := none }) pd hX
                  (fun x => rfl) (fun x => rfl)
                obtain ⟨c2, h2, hA2, hO2⟩ := getClient_updateClient_fields
                  (f := fun x => { x with partnerId := none, pairedAt := none, wantsChat := false })
                  d h1 (fun x => rfl) (fun x => rfl)
                exact ⟨c2, h2, hA2.trans hA1, hO2.trans hO1⟩
              cases hca : cd.pairedAt with
              | none =>
                  simp only [handleLeave, hd, hdp, hp2, hca, send_eq]
                  exact two _ hc
              | some ca =>
                  cases hpa : pp.pairedAt with
                  | none =>
                      simp only [handleLeave, hd, hdp, hp2, hca, hpa, send_eq]
                      exact two _ hc
                  | some pa =>
                      simp only [handleLeave, hd, hdp, hp2, hca, hpa, send_eq]
                      exact two _ hc

theorem handleLeave_preserves_other {s : ServerState} {d cid : Nat} {c : Client} (now : Nat)
    (hc : getClient s.clients cid = some c) (hne : cid ≠ d)
    (hnp : ∀ cd, getClient s.clients d = some cd → cd.partnerId ≠ some cid) :
    getClient (handleLeave s d now).clients cid = some c := by
  cases hd : getClient s.clients d with
  | none =>
      simp only [handleLeave, hd]
      exact hc
  | some cd =>
      cases hdp : cd.partnerId with
      | none =>
          simp only [handleLeave, hd, hdp]
          rw [getClient_updateClient_ne _ _ _ _ hne]
          exact hc
      | some pd =>
          have hpdne : cid ≠ pd := by
            intro e
            subst e
            exact hnp cd hd hdp
          cases hp2 : getClient s.clients pd with
          | none =>
              simp only [handleLeave, hd, hdp, hp2]
              rw [getClient_updateClient_ne _ _ _ _ hne]
              exact hc
          | some pp =>
              have final : ∀ X : List (Nat × Client), getClient X cid = some c →
                  getClient (updateClient
                    (updateClient X pd (fun p => { p with partnerId := none, pairedAt := none }))
                    d
                    (fun x => { x with partnerId := none, pairedAt := none, wantsChat := false }))
                    cid = some c := by
                intro X hX
                rw [getClient_updateClient_ne _ _ _ _ hne,
                  getClient_updateClient_ne _ _ _ _ hpdne]
                exact hX
              cases hca : cd.pairedAt with
              | none =>
                  simp only [handleLeave, hd, hdp, hp2, hca, send_eq]
                  exact final _ hc
              | some ca =>
                  cases hpa : pp.pairedAt with
                  | none =>
                      simp only [handleLeave, hd, hdp, hp2, hca, hpa, send_eq]
                      exact final _ hc
                  | some pa =>
                      simp only [handleLeave, hd, hdp, hp2, hca, hpa, send_eq]
                      exact final _ hc

theorem cleanupClient_preserves_other {s : ServerState} {d cid : Nat} {c : Client} (now : Nat)
    (hc : getClient s.clients cid = some c) (hne : cid ≠ d)
    (hnp : ∀ cd, getClient s.clients d = some cd → cd.partnerId ≠ some cid) :
    getClient (cleanupClient s d now).clients cid = some c := by
  cases hd : getClient s.clients d with
  | none =>
      simp only [cleanupClient, hd]
      exact hc
  | some cd =>
      simp only [cleanupClient, hd]
      rw [getClient_deleteClient_ne _ _ _ hne]
      exact handleLeave_preserves_other now hc hne hnp

theorem handleLeave_emits_partnerLeft {s : ServerState} {cid pid : Nat} {c p : Client}
    (now : Nat) (hc : getClient s.clients cid = some c) (hcp : c.partnerId = some pid)
    (hp : getClient s.clients pid = some p) (hopen : p.sockOpen = true) :
    (pid, OutMsg.partnerLeft) ∈ (handleLeave s cid now).outbox := by
  have hval : validEntry (updateClient s.clients pid
      (fun q => { q with partnerId := none, pairedAt := none })) pid = true := by
    unfold validEntry
    rw [getClient_updateClient_self, hp]
    exact hopen
  cases hca : c.pairedAt with
  | none => simp [handleLeave, hc, hcp, hp, hca, send_eq, hval]
  | some ca =>
      cases hpa : p.pairedAt with
      | none => simp [handleLeave, hc, hcp, hp, hca, hpa, send_eq, hval]
      | some pa => simp [handleLeave, hc, hcp, hp, hca, hpa, send_eq, hval]

theorem pointsTo_update_preserving {cs : List (Nat × Client)} {e : Nat}
    {f : Client → Client} {cid pid : Nat} (hf : ∀ x, (f x).partnerId = x.partnerId)
    (h : ∀ d cd, getClient cs d = some cd → cd.partnerId = some cid → d = pid) :
    ∀ d cd, getClient (updateClient cs e f) d = some cd → cd.partnerId = some cid →
      d = pid := by
  intro d cd hg hpd
  by_cases hd : d = e
  · subst hd
    rw [getClient_updateClient_self] at hg
    cases hx : getClient cs d with
    | none =>
        rw [hx] at hg
        exact absurd hg (by simp)
    | some c0 =>
        rw [hx] at hg
        obtain rfl := Option.some.inj hg
        rw [hf c0] at hpd
        exact h d c0 hx hpd
  · rw [getClient_updateClient_ne _ _ _ _ hd] at hg
    exact h d cd hg hpd

theorem pointsTo_update_clearing {cs : List (Nat × Client)} {e : Nat}
    {f : Client → Client} {cid pid : Nat} (hf : ∀ x, (f x).partnerId = none)
    (h : ∀ d cd, getClient cs d = some cd → cd.partnerId = some cid → d = pid) :
    ∀ d cd, getClient (updateClient cs e f) d = some cd → cd.partnerId = some cid →
      d = pid := by
  intro d cd hg hpd
  by_cases hd : d = e
  · subst hd
    rw [getClient_updateClient_self] at hg
    cases hx : getClient cs d with
    | none =>
        rw [hx] at hg
        exact absurd hg (by simp)
    | some c0 =>
        rw [hx] at hg
        obtain rfl := Option.some.inj hg
        rw [hf c0] at hpd
        exact absurd hpd (by simp)
  · rw [getClient_updateClient_ne _ _ _ _ hd] at hg
    exact h d cd hg hpd

theorem pointsTo_handleLeave_preserving {s : ServerState} {e now cid pid : Nat}
    (h : ∀ d cd, getClient s.clients d = some cd → cd.partnerId = some cid → d = pid) :
    ∀ d cd, getClient (handleLeave s e now).clients d = some cd →
      cd.partnerId = some cid → d = pid := by
  cases he : getClient s.clients e with
  | none =>
      simp only [handleLeave, he]
      exact h
  | some ce =>
      cases hep : ce.partnerId with
      | none =>
          simp only [handleLeave, he, hep]
          exact pointsTo_update_clearing (fun x => rfl) h
      | some pd =>
          cases hp2 : getClient s.clients pd with
          | none =>
              simp only [handleLeave, he, hep, hp2]
              exact pointsTo_update_clearing (fun x => rfl) h
          | some pp =>
              cases hca : ce.pairedAt with
              | none =>
                  simp only [handleLeave, he, hep, hp2, hca, send_eq]
                  exact pointsTo_update_clearing (fun x => rfl)
                    (pointsTo_update_clearing (fun x => rfl) h)
              | some ca =>
                  cases hpa : pp.pairedAt with
                  | none =>
                      simp only [handleLeave, he, hep, hp2, hca, hpa, send_eq]
                      exact pointsTo_update_clearing (fun x => rfl)
                        (pointsTo_update_clearing (fun x => rfl) h)
                  | some pa =>
                      simp only [handleLeave, he, hep, hp2, hca, hpa, send_eq]
                      exact pointsTo_update_clearing (fun x => rfl)
                        (pointsTo_update_clearing (fun x => rfl) h)

theorem pointsTo_cleanup_preserving {s : ServerState} {e now cid pid : Nat}
    (hkeys : (s.clients.map Prod.fst).Nodup)
    (h : ∀ d cd, getClient s.clients d = some cd → cd.partnerId = some cid → d = pid) :
    ∀ d cd, getClient (cleanupClient s e now).clients d = some cd →
      cd.partnerId = some cid → d = pid := by
  cases he : getClient s.clients e with
  | none =>
      simp only [cleanupClient, he]
      exact h
  | some ce =>
      simp only [cleanupClient, he]
      intro d cd hg hpd
      have hkeys' : ((handleLeave s e now).clients.map Prod.fst).Nodup := by
        rw [handleLeave_keys]
        exact hkeys
      by_cases hd : d = e
      · subst hd
        rw [getClient_deleteClient_self _ _ hkeys'] at hg
        exact absurd hg (by simp)
      · rw [getClient_deleteClient_ne _ _ _ hd] at hg
        exact pointsTo_handleLeave_preserving h d cd hg hpd

theorem cleanupClient_fields_other {s : ServerState} {d cid : Nat} {c : Client} (now : Nat)
    (hc : getClient s.clients cid = some c) (hne : cid ≠ d) :
    ∃ c', getClient (cleanupClient s d now).clients cid = some c' ∧
      c'.isAlive = c.isAlive ∧ c'.sockOpen = c.sockOpen := by
  cases hd : getClient s.clients d with
  | none =>
      simp only [cleanupClient, hd]
      exact ⟨c, hc, rfl, rfl⟩
  | some cd =>
      simp only [cleanupClient, hd]
      obtain ⟨c', hg, hA, hO⟩ := handleLeave_fields d now hc
      exact ⟨c', by rw [getClient_deleteClient_ne _ _ _ hne]; exact hg, hA, hO⟩

theorem cleanupClient_removes {s : ServerState} {cid : Nat} {c : Client} (now : Nat)
    (hkeys : (s.clients.map Prod.fst).Nodup) (hc : getClient s.clients cid = some c) :
    getClient (cleanupClient s cid now).clients cid = none := by
  simp only [cleanupClient, hc]
  apply getClient_deleteClient_self
  rw [handleLeave_keys]
  exact hkeys

/-! ### Heartbeat loop lemmas -/

theorem tickLoop_no_new (ids : List Nat) (now : Nat) :
    ∀ {s : ServerState} {cid : Nat}, getClient s.clients cid = none →
      getClient (tickLoop s ids now).clients cid = none := by
  induction ids with
  | nil => intro s cid h; simpa [tickLoop] using h
  | cons d rest ih =>
      intro s cid h
      cases hd : getClient s.clients d with
      | none =>
          simp only [tickLoop, hd]
          exact ih h
      | some cd =>
          cases hal : cd.isAlive with
          | true =>
              simp only [tickLoop, hd, hal, if_pos]
              exact ih (getClient_updateClient_none d _ h)
          | false =>
              simp only [tickLoop, hd, hal, Bool.false_eq_true, if_false]
              exact ih (cleanupClient_no_new d now (getClient_updateClient_none d _ h))

theorem tickLoop_outbox_mono (ids : List Nat) (now : Nat) :
    ∀ {s : ServerState}, ∃ l, (tickLoop s ids now).outbox = s.outbox ++ l := by
  induction ids with
  | nil => intro s; exact ⟨[], by simp [tickLoop]⟩
  | cons d rest ih =>
      intro s
      cases hd : getClient s.clients d with
      | none =>
          simp only [tickLoop, hd]
          exact ih
      | some cd =>
          cases hal : cd.isAlive with
          | true =>
              simp only [tickLoop, hd, hal, if_pos]
              exact ih
          | false =>
              simp only [tickLoop, hd, hal, Bool.false_eq_true, if_false]
              obtain ⟨l1, hl1⟩ := cleanupClient_outbox_mono d now
                { s with clients := updateClient s.clients d (fun c => { c with sockOpen := false }) }
              obtain ⟨l2, hl2⟩ := ih (s := cleanupClient { s with clients := updateClient s.clients d (fun c => { c with sockOpen := false }) } d now)
              exact ⟨l1 ++ l2, by rw [hl2, hl1]; simp [List.append_assoc]⟩

theorem tickLoop_outbox_mem (ids : List Nat) (now : Nat) {s : ServerState}
    {x : Nat × OutMsg} (h : x ∈ s.outbox) : x ∈ (tickLoop s ids now).outbox := by
  obtain ⟨l, hl⟩ := tickLoop_outbox_mono ids now (s := s)
  rw [hl]
  exact List.mem_append_left _ h

theorem tickLoop_pings_mono (ids : List Nat) (now : Nat) :
    ∀ {s : ServerState}, ∃ l, (tickLoop s ids now).pings = s.pings ++ l := by
  induction ids with
  | nil => intro s; exact ⟨[], by simp [tickLoop]⟩
  | cons d rest ih =>
      intro s
      cases hd : getClient s.clients d with
      | none =>
          simp only [tickLoop, hd]
          exact ih
      | some cd =>
          cases hal : cd.isAlive with
          | true =>
              simp only [tickLoop, hd, hal, if_pos]
              obtain ⟨l, hl⟩ := ih (s := { { s with clients := updateClient s.clients d (fun c => { c with isAlive := false }) } with pings := s.pings ++ [d] })
              exact ⟨[d] ++ l, by rw [hl]; simp [List.append_assoc]⟩
          | false =>
              simp only [tickLoop, hd, hal, Bool.false_eq_true, if_false]
              obtain ⟨l, hl⟩ := ih (s := cleanupClient { s with clients := updateClient s.clients d (fun c => { c with sockOpen := false }) } d now)
              rw [hl, cleanupClient_pings]
              exact ⟨l, rfl⟩

theorem tickLoop_pings_mem (ids : List Nat) (now : Nat) {s : ServerState}
    {x : Nat} (h : x ∈ s.pings) : x ∈ (tickLoop s ids now).pings := by
  obtain ⟨l, hl⟩ := tickLoop_pings_mono ids now (s := s)
  rw [hl]
  exact List.mem_append_left _ h

theorem tickLoop_fields_not_in (ids : List Nat) (now : Nat) :
    ∀ {s : ServerState} {cid : Nat} {c : Client}, cid ∉ ids →
      getClient s.clients cid = some c →
      ∃ c', getClient (tickLoop s ids now).clients cid = some c' ∧
        c'.isAlive = c.isAlive := by
  induction ids with
  | nil =>
      intro s cid c _ hc
      exact ⟨c, by simpa [tickLoop] using hc, rfl⟩
  | cons d rest ih =>
      intro s cid c hnot hc
      have hne : cid ≠ d := fun e => hnot (e ▸ List.mem_cons_self d rest)
      have hnr : cid ∉ rest := fun e => hnot (List.mem_cons_of_mem d e)
      cases hd : getClient s.clients d with
      | none =>
          simp only [tickLoop, hd]
          exact ih hnr hc
      | some cd =>
          cases hal : cd.isAlive with
          | true =>
              simp only [tickLoop, hd, hal, if_pos]
              exact ih hnr (by rw [getClient_updateClient_ne _ _ _ _ hne]; exact hc)
          | false =>
              simp only [tickLoop, hd, hal, Bool.false_eq_true, if_false]
              obtain ⟨c2, hg2, hA2, _⟩ := cleanupClient_fields_other now
                (s := { s with clients := updateClient s.clients d (fun c => { c with sockOpen := false }) })
                (by rw [getClient_updateClient_ne _ _ _ _ hne]; exact hc) hne
              obtain ⟨c3, hg3, hA3⟩ := ih hnr hg2
              exact ⟨c3, hg3, hA3.trans hA2⟩

theorem getClient_some_mem_keys {cs : List (Nat × Client)} {cid : Nat} {c : Client}
    (h : getClient cs cid = some c) : cid ∈ cs.map Prod.fst := by
  by_contra hmem
  rw [(getClient_eq_none_iff cs cid).2 hmem] at h
  exact absurd h (by simp)

theorem tickLoop_keys_nodup (ids : List Nat) (now : Nat) :
    ∀ {s : ServerState}, (s.clients.map Prod.fst).Nodup →
      ((tickLoop s ids now).clients.map Prod.fst).Nodup := by
  induction ids with
  | nil => intro s h; simpa [tickLoop] using h
  | cons d rest ih =>
      intro s h
      cases hd : getClient s.clients d with
      | none =>
          simp only [tickLoop, hd]
          exact ih h
      | some cd =>
          cases hal : cd.isAlive with
          | true =>
              simp only [tickLoop, hd, hal, if_pos]
              exact ih (by simp only [keys_updateClient]; exact h)
          | false =>
              simp only [tickLoop, hd, hal, Bool.false_eq_true, if_false]
              refine ih (List.Nodup.sublist (cleanupClient_keys_sublist d now _) ?_)
              simp only [keys_updateClient]
              exact h

theorem tickLoop_removes_dead (ids : List Nat) (now : Nat) :
    ∀ {s : ServerState} {cid : Nat} {c : Client}, (s.clients.map Prod.fst).Nodup →
      cid ∈ ids → getClient s.clients cid = some c → c.isAlive = false →
      getClient (tickLoop s ids now).clients cid = none := by
  induction ids with
  | nil => intro s cid c _ h; exact absurd h (List.not_mem_nil _)
  | cons d rest ih =>
      intro s cid c hkeys hmem hc hdead
      by_cases hdc : cid = d
      · subst hdc
        simp only [tickLoop, hc, hdead, Bool.false_eq_true, if_false]
        have hc1 : getClient ({ s with clients := updateClient s.clients cid (fun c => { c with sockOpen := false }) } : ServerState).clients cid = some { c with sockOpen := false } := by
          rw [getClient_updateClient_self, hc]
          rfl
        exact tickLoop_no_new rest now (cleanupClient_removes now
          (by simp only [keys_updateClient]; exact hkeys) hc1)
      · have hr : cid ∈ rest := by
          rcases List.mem_cons.1 hmem with h1 | h2
          · exact absurd h1 hdc
          · exact h2
        cases hd : getClient s.clients d with
        | none =>
            simp only [tickLoop, hd]
            exact ih hkeys hr hc hdead
        | some cd =>
            cases hal : cd.isAlive with
            | true =>
                simp only [tickLoop, hd, hal, if_pos]
                refine ih ?_ hr ?_ hdead
                · simp only [keys_updateClient]
                  exact hkeys
                · rw [getClient_updateClient_ne _ _ _ _ hdc]
                  exact hc
            | false =>
                simp only [tickLoop, hd, hal, Bool.false_eq_true, if_false]
                have hkeys1 : (({ s with clients := updateClient s.clients d (fun c => { c with sockOpen := false }) } : ServerState).clients.map Prod.fst).Nodup := by
                  simp only [keys_updateClient]
                  exact hkeys
                have hc1 : getClient ({ s with clients := updateClient s.clients d (fun c => { c with sockOpen := false }) } : ServerState).clients cid = some c := by
                  rw [getClient_updateClient_ne _ _ _ _ hdc]
                  exact hc
                obtain ⟨c2, hg2, hA2, _⟩ := cleanupClient_fields_other now hc1 hdc
                exact ih (List.Nodup.sublist (cleanupClient_keys_sublist d now _) hkeys1)
                  hr hg2 (hA2.trans hdead)

theorem tickLoop_alive_probed (ids : List Nat) (now : Nat) :
    ∀ {s : ServerState} {cid : Nat} {c : Client}, ids.Nodup → cid ∈ ids →
      getClient s.clients cid = some c → c.isAlive = true →
      (∃ c', getClient (tickLoop s ids now).clients cid = some c' ∧
        c'.isAlive = false) ∧ cid ∈ (tickLoop s ids now).pings := by
  induction ids with
  | nil => intro s cid c _ h; exact absurd h (List.not_mem_nil _)
  | cons d rest ih =>
      intro s cid c hnd hmem hc halive
      obtain ⟨hdr, hndr⟩ := List.nodup_cons.1 hnd
      by_cases hdc : cid = d
      · subst hdc
        simp only [tickLoop, hc, halive, if_pos]
        constructor
        · have hg0 : getClient ({ { s with clients := updateClient s.clients cid (fun c => { c with isAlive := false }) } with pings := s.pings ++ [cid] } : ServerState).clients cid = some { c with isAlive := false } := by
            rw [getClient_updateClient_self, hc]
            rfl
          obtain ⟨c', hg', hA'⟩ := tickLoop_fields_not_in rest now hdr hg0
          exact ⟨c', hg', hA'⟩
        · exact tickLoop_pings_mem rest now
            (List.mem_append_right _ (List.mem_singleton.2 rfl))
      · have hr : cid ∈ rest := by
          rcases List.mem_cons.1 hmem with h1 | h2
          · exact absurd h1 hdc
          · exact h2
        cases hd : getClient s.clients d with
        | none =>
            simp only [tickLoop, hd]
            exact ih hndr hr hc halive
        | some cd =>
            cases hal : cd.isAlive with
            | true =>
                simp only [tickLoop, hd, hal, if_pos]
                exact ih hndr hr
                  (by rw [getClient_updateClient_ne _ _ _ _ hdc]; exact hc) halive
            | false =>
                simp only [tickLoop, hd, hal, Bool.false_eq_true, if_false]
                have hc1 : getClient ({ s with clients := updateClient s.clients d (fun c => { c with sockOpen := false }) } : ServerState).clients cid = some c := by
                  rw [getClient_updateClient_ne _ _ _ _ hdc]
                  exact hc
                obtain ⟨c2, hg2, hA2, _⟩ := cleanupClient_fields_other now hc1 hdc
                exact ih hndr hr hg2 (hA2.trans halive)

theorem tickLoop_partner_notified (ids : List Nat) (now : Nat) :
    ∀ {s : ServerState} {cid pid : Nat} {c p : Client},
      (s.clients.map Prod.fst).Nodup → ids.Nodup → cid ∈ ids →
      getClient s.clients cid = some c → c.isAlive = false → c.partnerId = some pid →
      getClient s.clients pid = some p → p.sockOpen = true →
      (p.isAlive = true ∨ pid ∉ ids) →
      (∀ d cd, getClient s.clients d = some cd → cd.partnerId = some cid → d = pid) →
      (pid, OutMsg.partnerLeft) ∈ (tickLoop s ids now).outbox := by
  induction ids with
  | nil => intro s cid pid c p _ _ h; exact absurd h (List.not_mem_nil _)
  | cons d rest ih =>
      intro s cid pid c p hkeys hnd hmem hc hdead hcp hp hopen halive huniq
      have hpc : pid ≠ cid := by
        intro e
        subst e
        rcases halive with h1 | h2
        · obtain rfl : c = p := Option.some.inj (hc.symm.trans hp)
          rw [hdead] at h1
          exact absurd h1 (by simp)
        · exact h2 hmem
      obtain ⟨hdr, hndr⟩ := List.nodup_cons.1 hnd
      by_cases hdc : cid = d
      · subst hdc
        simp only [tickLoop, hc, hdead, Bool.false_eq_true, if_false]
        apply tickLoop_outbox_mem
        have hc1 : getClient ({ s with clients := updateClient s.clients cid (fun c => { c with sockOpen := false }) } : ServerState).clients cid = some { c with sockOpen := false } := by
          rw [getClient_updateClient_self, hc]
          rfl
        simp only [cleanupClient, hc1]
        exact handleLeave_emits_partnerLeft now hc1 hcp
          (by rw [getClient_updateClient_ne _ _ _ _ hpc]; exact hp) hopen
      · have hr : cid ∈ rest := by
          rcases List.mem_cons.1 hmem with h1 | h2
          · exact absurd h1 hdc
          · exact h2
        cases hd : getClient s.clients d with
        | none =>
            simp only [tickLoop, hd]
            refine ih hkeys hndr hr hc hdead hcp hp hopen ?_ huniq
            rcases halive with h1 | h2
            · exact Or.inl h1
            · exact Or.inr (fun e => h2 (List.mem_cons_of_mem d e))
        | some cd =>
            cases hal : cd.isAlive with
            | true =>
                simp only [tickLoop, hd, hal, if_pos]
                by_cases hpd : pid = d
                · subst hpd
                  obtain rfl : cd = p := Option.some.inj (hd.symm.trans hp)
                  refine ih (p := { cd with isAlive := false })
                    (by simp only [keys_updateClient]; exact hkeys) hndr hr
                    (by rw [getClient_updateClient_ne _ _ _ _ hdc]; exact hc) hdead hcp
                    (by rw [getClient_updateClient_self, hp]; rfl) hopen
                    (Or.inr hdr) (pointsTo_update_preserving (fun x => rfl) huniq)
                · refine ih (by simp only [keys_updateClient]; exact hkeys) hndr hr
                    (by rw [getClient_updateClient_ne _ _ _ _ hdc]; exact hc) hdead hcp
                    (by rw [getClient_updateClient_ne _ _ _ _ hpd]; exact hp) hopen
                    ?_ (pointsTo_update_preserving (fun x => rfl) huniq)
                  rcases halive with h1 | h2
                  · exact Or.inl h1
                  · exact Or.inr (fun e => h2 (List.mem_cons_of_mem d e))
            | false =>
                simp only [tickLoop, hd, hal, Bool.false_eq_true, if_false]
                have hdp : d ≠ pid := by
                  intro e
                  subst e
                  rcases halive with h1 | h2
                  · obtain rfl : cd = p := Option.some.inj (hd.symm.trans hp)
                    rw [hal] at h1
                    exact absurd h1 (by simp)
                  · exact h2 (List.mem_cons_self _ _)
                have hc1 : getClient ({ s with clients := updateClient s.clients d (fun c => { c with sockOpen := false }) } : ServerState).clients cid = some c := by
                  rw [getClient_updateClient_ne _ _ _ _ hdc]
                  exact hc
                have hp1 : getClient ({ s with clients := updateClient s.clients d (fun c => { c with sockOpen := false }) } : ServerState).clients pid = some p := by
                  rw [getClient_updateClient_ne _ _ _ _ (Ne.symm hdp)]
                  exact hp
                have hkeys1 : (({ s with clients := updateClient s.clients d (fun c => { c with sockOpen := false }) } : ServerState).clients.map Prod.fst).Nodup := by
                  simp only [keys_updateClient]
                  exact hkeys
                have huniq1 : ∀ d' cd', getClient ({ s with clients := updateClient s.clients d (fun c => { c with sockOpen := false }) } : ServerState).clients d' = some cd' → cd'.partnerId = some cid → d' = pid :=
                  pointsTo_update_preserving (fun x => rfl) huniq
                have hnp : ∀ cd', getClient ({ s with clients := updateClient s.clients d (fun c => { c with sockOpen := false }) } : ServerState).clients d = some cd' → cd'.partnerId ≠ some cid := by
                  intro cd' hg hcontra
                  exact hdp (huniq1 d cd' hg hcontra)
                have hc2 := cleanupClient_preserves_other now hc1 hdc hnp
                obtain ⟨p2, hgp2, hA2, hO2⟩ :=
                  cleanupClient_fields_other now hp1 (Ne.symm hdp)
                refine ih (List.Nodup.sublist (cleanupClient_keys_sublist d now _) hkeys1)
                  hndr hr hc2 hdead hcp hgp2 (hO2.trans hopen) ?_
                  (pointsTo_cleanup_preserving hkeys1 huniq1)
                rcases halive with h1 | h2
                · exact Or.inl (hA2.trans h1)
                · exact Or.inr (fun e => h2 (List.mem_cons_of_mem d e))

/-! ### Reachability of the demo runs -/

theorem reachable_runEvents {s : ServerState} (h : Reachable s) (es : List Event) :
    Reachable (runEvents s es) := by
  induction es generalizing s with
  | nil => simpa [runEvents] using h
  | cons e rest ih => simpa [runEvents] using ih (Reachable.step e h)

theorem demoPairState_reachable : Reachable demoPairState :=
  reachable_runEvents Reachable.init _

theorem demoWaitState_reachable : Reachable demoWaitState :=
  reachable_runEvents Reachable.init _

/-! ### The claims -/

/-- C1: In every state reachable by any sequence of handler executions, a
registered client whose `partnerId` is set points at a registered client
whose `partnerId` points straight back — pairing is always two-sided. -/
theorem pairing_symmetry (s : ServerState) (a : Nat) (ca : Client) (b : Nat)
    (hs : Reachable s) (ha : getClient s.clients a = some ca)
    (hab : ca.partnerId = some b) :
    ∃ cb, getClient s.clients b = some cb ∧ cb.partnerId = some a := by
  obtain ⟨_, p, hp, hpp⟩ := (reachable_inv hs).2.2.2.1 a ca b ha hab
  exact ⟨p, hp, hpp⟩

theorem pairing_symmetry_witness :
    ∃ cb, getClient demoPairState.clients 2 = some cb ∧ cb.partnerId = some 1 :=
  pairing_symmetry demoPairState 1
    { sockOpen := true, partnerId := some 2, wantsChat := false, isAlive := true, connectedAt := 0, pairedAt := some 0 }
    2 demoPairState_reachable (by decide) (by decide)

/-- C7: In every reachable state, no client's `partnerId` is its own id; in
particular `ready` never pairs a client with itself. -/
theorem no_self_pairing (s : ServerState) (a : Nat) (ca : Client)
    (hs : Reachable s) (ha : getClient s.clients a = some ca) :
    ca.partnerId ≠ some a := by
  intro he
  exact ((reachable_inv hs).2.2.2.1 a ca a ha he).1 rfl

theorem no_self_pairing_witness :
    ({ sockOpen := true, partnerId := some 2, wantsChat := false, isAlive := true, connectedAt := 0, pairedAt := some 0 } : Client).partnerId ≠ some 1 :=
  no_self_pairing demoPairState 1
    { sockOpen := true, partnerId := some 2, wantsChat := false, isAlive := true, connectedAt := 0, pairedAt := some 0 }
    demoPairState_reachable (by decide)

/-- C8: In every reachable state the waiting queue has no duplicate ids and
every queued id belongs to a registered, unpaired client; a further `ready`
from a queued client only sends back a status message and changes nothing. -/
theorem waiting_queue_invariant (s : ServerState) (hs : Reachable s) :
    s.waitingQueue.Nodup ∧
    (∀ id ∈ s.waitingQueue, ∃ c, getClient s.clients id = some c ∧ c.partnerId = none) ∧
    (∀ cid ∈ s.waitingQueue, ∀ now, handleReady s cid now =
      send s cid (.status "Waiting for the next available partner...")) := by
  obtain ⟨h1, h2, h3, h4, h5⟩ := reachable_inv hs
  refine ⟨h2, h3, ?_⟩
  intro cid hcid now
  obtain ⟨c, hc, hcp⟩ := h3 cid hcid
  simp only [handleReady, hc, hcp, Option.isSome_none, Bool.false_eq_true, if_false,
    if_pos hcid]

theorem waiting_queue_invariant_witness :
    demoWaitState.waitingQueue.Nodup ∧
    (∀ id ∈ demoWaitState.waitingQueue,
      ∃ c, getClient demoWaitState.clients id = some c ∧ c.partnerId = none) ∧
    (∀ cid ∈ demoWaitState.waitingQueue, ∀ now, handleReady demoWaitState cid now =
      send demoWaitState cid (.status "Waiting for the next available partner...")) :=
  waiting_queue_invariant demoWaitState demoWaitState_reachable

/-- C10: The active-conversations counter starts at zero and stays
non-negative in every reachable state — formation adds one and dissolution
clamps the decrement at zero. -/
theorem active_conversations_nonneg (s : ServerState) (hs : Reachable s) :
    initState.activeConversations = 0 ∧ 0 ≤ s.activeConversations :=
  ⟨rfl, (reachable_inv hs).2.2.2.2⟩

theorem active_conversations_nonneg_witness :
    initState.activeConversations = 0 ∧ 0 ≤ demoPairState.activeConversations :=
  active_conversations_nonneg demoPairState demoPairState_reachable

/-- C4: A `signal` from an unpaired client only earns the sender a status
message and leaves the registry, queue and stats untouched; a `signal` from
a paired client whose partner resolves is forwarded to the partner verbatim
and changes no shared state. -/
theorem signal_relay (s : ServerState) (cid now : Nat) (payload : SignalMessage)
    (c : Client) (hc : getClient s.clients cid = some c) :
    (c.partnerId = none →
      handleSignal s cid payload now =
        send s cid (.status "Waiting for a partner before sending media.") ∧
      (handleSignal s cid payload now).clients = s.clients ∧
      (handleSignal s cid payload now).waitingQueue = s.waitingQueue ∧
      (handleSignal s cid payload now).activeConversations = s.activeConversations ∧
      (handleSignal s cid payload now).conversationHistory = s.conversationHistory) ∧
    (∀ pid p, c.partnerId = some pid → getClient s.clients pid = some p →
      handleSignal s cid payload now = send s pid (.signal payload) ∧
      (handleSignal s cid payload now).clients = s.clients ∧
      (handleSignal s cid payload now).waitingQueue = s.waitingQueue ∧
      (handleSignal s cid payload now).activeConversations = s.activeConversations ∧
      (handleSignal s cid payload now).conversationHistory = s.conversationHistory ∧
      (p.sockOpen = true →
        (handleSignal s cid payload now).outbox =
          s.outbox ++ [(pid, OutMsg.signal payload)])) := by
  constructor
  · intro hcp
    have heq : handleSignal s cid payload now =
        send s cid (.status "Waiting for a partner before sending media.") := by
      simp only [handleSignal, hc, hcp]
    refine ⟨heq, ?_, ?_, ?_, ?_⟩ <;> rw [heq, send_eq]
  · intro pid p hcp hp
    have heq : handleSignal s cid payload now = send s pid (.signal payload) := by
      simp only [handleSignal, hc, hcp, hp]
    refine ⟨heq, ?_, ?_, ?_, ?_, ?_⟩
    · rw [heq, send_eq]
    · rw [heq, send_eq]
    · rw [heq, send_eq]
    · rw [heq, send_eq]
    · intro hopen
      have hval : validEntry s.clients pid = true := by
        unfold validEntry
        rw [hp]
        exact hopen
      rw [heq, send_eq]
      simp [hval]

theorem signal_relay_witness :
    (({ sockOpen := true, partnerId := some 2, wantsChat := false, isAlive := true, connectedAt := 0, pairedAt := some 0 } : Client).partnerId = none →
      handleSignal demoPairState 1 { kind := SigKind.offer, data := "X" } 0 =
        send demoPairState 1 (.status "Waiting for a partner before sending media.") ∧
      (handleSignal demoPairState 1 { kind := SigKind.offer, data := "X" } 0).clients = demoPairState.clients ∧
      (handleSignal demoPairState 1 { kind := SigKind.offer, data := "X" } 0).waitingQueue = demoPairState.waitingQueue ∧
      (handleSignal demoPairState 1 { kind := SigKind.offer, data := "X" } 0).activeConversations = demoPairState.activeConversations ∧
      (handleSignal demoPairState 1 { kind := SigKind.offer, data := "X" } 0).conversationHistory = demoPairState.conversationHistory) ∧
    (∀ pid p, ({ sockOpen := true, partnerId := some 2, wantsChat := false, isAlive := true, connectedAt := 0, pairedAt := some 0 } : Client).partnerId = some pid →
      getClient demoPairState.clients pid = some p →
      handleSignal demoPairState 1 { kind := SigKind.offer, data := "X" } 0 =
        send demoPairState pid (.signal { kind := SigKind.offer, data := "X" }) ∧
      (handleSignal demoPairState 1 { kind := SigKind.offer, data := "X" } 0).clients = demoPairState.clients ∧
      (handleSignal demoPairState 1 { kind := SigKind.offer, data := "X" } 0).waitingQueue = demoPairState.waitingQueue ∧
      (handleSignal demoPairState 1 { kind := SigKind.offer, data := "X" } 0).activeConversations = demoPairState.activeConversations ∧
      (handleSignal demoPairState 1 { kind := SigKind.offer, data := "X" } 0).conversationHistory = demoPairState.conversationHistory ∧
      (p.sockOpen = true →
        (handleSignal demoPairState 1 { kind := SigKind.offer, data := "X" } 0).outbox =
          demoPairState.outbox ++ [(pid, OutMsg.signal { kind := SigKind.offer, data := "X" })])) :=
  signal_relay demoPairState 1 0 { kind := SigKind.offer, data := "X" }
    { sockOpen := true, partnerId := some 2, wantsChat := false, isAlive := true, connectedAt := 0, pairedAt := some 0 }
    (by decide)

/-- C5: `leave` is idempotent: a second `leave` right after a first changes
neither the active-conversations counter, the conversation history, nor the
outbox (so no error and no duplicated side effect), and a `leave` whose
partner is already gone from the registry records nothing at all. -/
theorem leave_idempotent (s : ServerState) (cid t1 t2 : Nat) :
    ((handleLeave (handleLeave s cid t1) cid t2).activeConversations =
        (handleLeave s cid t1).activeConversations ∧
      (handleLeave (handleLeave s cid t1) cid t2).conversationHistory =
        (handleLeave s cid t1).conversationHistory ∧
      (handleLeave (handleLeave s cid t1) cid t2).outbox =
        (handleLeave s cid t1).outbox) ∧
    (∀ c pid, getClient s.clients cid = some c → c.partnerId = some pid →
      getClient s.clients pid = none →
      (handleLeave s cid t1).activeConversations = s.activeConversations ∧
      (handleLeave s cid t1).conversationHistory = s.conversationHistory ∧
      (handleLeave s cid t1).outbox = s.outbox) := by
  constructor
  · cases hc : getClient s.clients cid with
    | none =>
        have h1 : handleLeave s cid t1 = s := by simp only [handleLeave, hc]
        rw [h1]
        have h2 : handleLeave s cid t2 = s := by simp only [handleLeave, hc]
        rw [h2]
        exact ⟨rfl, rfl, rfl⟩
    | some c =>
        obtain ⟨c', hg', hp', _, _, _, _⟩ := handleLeave_getClient_self t1 hc
        generalize hgen : handleLeave s cid t1 = s1 at hg' ⊢
        simp only [handleLeave, hg', hp']
        exact ⟨trivial, trivial, trivial⟩
  · intro c pid hc hcp hgone
    simp only [handleLeave, hc, hcp, hgone]
    exact ⟨trivial, trivial, trivial⟩

/-- C9: A `signal` from a client whose partner id no longer resolves runs
exactly the leave teardown on the sender: nothing is forwarded, the sender
ends with `partnerId` and `pairedAt` cleared and is removed from the queue,
matching the teardown a remaining side undergoes when its partner leaves. -/
theorem signal_dangling_partner (s : ServerState) (cid now : Nat)
    (payload : SignalMessage) (c : Client) (pid : Nat)
    (hc : getClient s.clients cid = some c) (hcp : c.partnerId = some pid)
    (hdangle : getClient s.clients pid = none) :
    handleSignal s cid payload now = handleLeave s cid now ∧
    (∃ c', getClient (handleSignal s cid payload now).clients cid = some c' ∧
      c'.partnerId = none ∧ c'.pairedAt = none) ∧
    (handleSignal s cid payload now).waitingQueue = removeFirst s.waitingQueue cid ∧
    (handleSignal s cid payload now).outbox = s.outbox := by
  have heq : handleSignal s cid payload now = handleLeave s cid now := by
    simp only [handleSignal, hc, hcp, hdangle]
  refine ⟨heq, ?_, ?_, ?_⟩
  · rw [heq]
    obtain ⟨c', hg, hp1, hp2, _, _, _⟩ := handleLeave_getClient_self now hc
    exact ⟨c', hg, hp1, hp2⟩
  · rw [heq]
    exact handleLeave_waitingQueue now hc
  · rw [heq]
    simp only [handleLeave, hc, hcp, hdangle]

theorem signal_dangling_partner_witness :
    handleSignal dangleDemoState 1 { kind := SigKind.ice, data := "Y" } 0 =
      handleLeave dangleDemoState 1 0 ∧
    (∃ c', getClient (handleSignal dangleDemoState 1 { kind := SigKind.ice, data := "Y" } 0).clients 1 = some c' ∧
      c'.partnerId = none ∧ c'.pairedAt = none) ∧
    (handleSignal dangleDemoState 1 { kind := SigKind.ice, data := "Y" } 0).waitingQueue =
      removeFirst dangleDemoState.waitingQueue 1 ∧
    (handleSignal dangleDemoState 1 { kind := SigKind.ice, data := "Y" } 0).outbox =
      dangleDemoState.outbox :=
  signal_dangling_partner dangleDemoState 1 0 { kind := SigKind.ice, data := "Y" }
    { sockOpen := true, partnerId := some 2, wantsChat := false, isAlive := true, connectedAt := 0, pairedAt := some 0 }
    2 (by decide) (by decide) (by decide)

theorem validEntry_update_of_sockOpen_preserving {cs : List (Nat × Client)} {d : Nat}
    {f : Client → Client} (hf : ∀ x, (f x).sockOpen = x.sockOpen) (x : Nat) :
    validEntry (updateClient cs d f) x = validEntry cs x := by
  unfold validEntry
  by_cases hd : x = d
  · subst hd
    rw [getClient_updateClient_self]
    cases hg : getClient cs x with
    | none => rfl
    | some c => simp [hf c]
  · rw [getClient_updateClient_ne _ _ _ _ hd]

/-- C2 (counterexample to the §8 role assignment): in the concrete run
where client 1 waits and client 2 then sends `ready`, the waiting client 1
receives role `answerer` and the newly ready client 2 receives `offerer` —
not the other way around as the scenario sentence states. -/
theorem ready_roles_spec_counterexample :
    (1, OutMsg.matchMsg 2 Role.offerer) ∉ demoPairState.outbox ∧
    (2, OutMsg.matchMsg 1 Role.answerer) ∉ demoPairState.outbox ∧
    (1, OutMsg.matchMsg 2 Role.answerer) ∈ demoPairState.outbox ∧
    (2, OutMsg.matchMsg 1 Role.offerer) ∈ demoPairState.outbox := by decide

/-- C2 (amended): when a waiting client A is at the head of the queue and a
live, unpaired, unqueued client B sends `ready`, B receives
`match{partnerId: A, role: offerer}` and A receives
`match{partnerId: B, role: answerer}` — the `ready` sender takes the
offerer role, the longest-waiting client the answerer role. -/
theorem ready_roles_assignment (s : ServerState) (b now : Nat) (cb : Client)
    (a : Nat) (q' : List Nat) (ca : Client)
    (hb : getClient s.clients b = some cb) (hbp : cb.partnerId = none)
    (hbq : b ∉ s.waitingQueue) (hbo : cb.sockOpen = true)
    (hq : s.waitingQueue = a :: q') (ha : getClient s.clients a = some ca)
    (hao : ca.sockOpen = true) :
    (handleReady s b now).outbox = s.outbox ++
      [(b, OutMsg.matchMsg a Role.offerer), (a, OutMsg.matchMsg b Role.answerer),
       (b, OutMsg.status "Connected! Start your video."),
       (a, OutMsg.status "Connected! Start your video.")] := by
  have hab : a ≠ b := by
    intro e
    exact hbq (by rw [hq, ← e]; exact List.mem_cons_self a q')
  have hga : getClient (updateClient s.clients b (fun c => { c with wantsChat := true })) a
      = some ca := by
    rw [getClient_updateClient_ne _ _ _ _ hab]
    exact ha
  have hscan : scanQueue (updateClient s.clients b (fun c => { c with wantsChat := true }))
      s.waitingQueue = (some a, q') := by
    rw [hq]
    simp only [scanQueue, hga, hao, if_pos]
  simp only [handleReady, hb, hbp, Option.isSome_none, Bool.false_eq_true, if_false,
    if_neg hbq, hscan]
  simp only [connectPair, send_eq,
    validEntry_update_of_sockOpen_preserving (f := fun c => { c with partnerId := some b, wantsChat := false, pairedAt := some now }) (fun x => rfl),
    validEntry_update_of_sockOpen_preserving (f := fun c => { c with partnerId := some a, wantsChat := false, pairedAt := some now }) (fun x => rfl),
    validEntry_update_of_sockOpen_preserving (f := fun c => { c with wantsChat := true }) (fun x => rfl)]
  have hvb : validEntry s.clients b = true := by
    unfold validEntry
    rw [hb]
    exact hbo
  have hva : validEntry s.clients a = true := by
    unfold validEntry
    rw [ha]
    exact hao
  simp [hvb, hva]

theorem ready_roles_assignment_witness :
    (handleReady demoReadyState 2 0).outbox = demoReadyState.outbox ++
      [(2, OutMsg.matchMsg 1 Role.offerer), (1, OutMsg.matchMsg 2 Role.answerer),
       (2, OutMsg.status "Connected! Start your video."),
       (1, OutMsg.status "Connected! Start your video.")] :=
  ready_roles_assignment demoReadyState 2 0
    { sockOpen := true, partnerId := none, wantsChat := false, isAlive := true, connectedAt := 0, pairedAt := none }
    1 []
    { sockOpen := true, partnerId := none, wantsChat := true, isAlive := true, connectedAt := 0, pairedAt := none }
    (by decide) (by decide) (by decide) (by decide) (by decide) (by decide) (by decide)

/-- C3: `ready` from an unpaired, unqueued client scans the queue from the
head: it splits the queue into a discarded prefix of invalid entries and
the first entry that resolves to a registered client with an open socket,
which is paired with the sender (sender offerer, queue head answerer, queue
left at the remaining suffix); if no entry is valid, the queue is drained
and the sender is appended alone and told it is waiting. -/
theorem ready_fifo_matching (s : ServerState) (cid now : Nat) (c : Client)
    (hc : getClient s.clients cid = some c) (hcp : c.partnerId = none)
    (hq : cid ∉ s.waitingQueue) :
    (∃ pre pid rest, s.waitingQueue = pre ++ pid :: rest ∧
      (∀ x ∈ pre, validEntry s.clients x = false) ∧
      validEntry s.clients pid = true ∧
      handleReady s cid now =
        connectPair { s with clients := updateClient s.clients cid (fun c => { c with wantsChat := true }), waitingQueue := rest } cid pid now) ∨
    ((∀ x ∈ s.waitingQueue, validEntry s.clients x = false) ∧
      handleReady s cid now =
        send { s with clients := updateClient s.clients cid (fun c => { c with wantsChat := true }), waitingQueue := [cid] } cid
          (.status "Waiting for someone to join...")) := by
  have hval : ∀ x, validEntry (updateClient s.clients cid
      (fun c => { c with wantsChat := true })) x = validEntry s.clients x :=
    validEntry_update_of_sockOpen_preserving (fun x => rfl)
  cases hscan : scanQueue (updateClient s.clients cid (fun c => { c with wantsChat := true }))
      s.waitingQueue with
  | mk found rest =>
      cases found with
      | some pid =>
          obtain ⟨pre, hqeq, hpre, hpid⟩ := scanQueue_some _ _ _ _ hscan
          refine Or.inl ⟨pre, pid, rest, hqeq, ?_, ?_, ?_⟩
          · intro x hx
            rw [← hval x]
            exact hpre x hx
          · rw [← hval pid]
            exact hpid
          · simp only [handleReady, hc, hcp, Option.isSome_none, Bool.false_eq_true,
              if_false, if_neg hq, hscan]
      | none =>
          obtain ⟨-, hall⟩ := scanQueue_none _ _ _ hscan
          refine Or.inr ⟨?_, ?_⟩
          · intro x hx
            rw [← hval x]
            exact hall x hx
          · simp only [handleReady, hc, hcp, Option.isSome_none, Bool.false_eq_true,
              if_false, if_neg hq, hscan]

theorem ready_fifo_matching_witness :
    (∃ pre pid rest, scanDemoState.waitingQueue = pre ++ pid :: rest ∧
      (∀ x ∈ pre, validEntry scanDemoState.clients x = false) ∧
      validEntry scanDemoState.clients pid = true ∧
      handleReady scanDemoState 9 0 =
        connectPair { scanDemoState with clients := updateClient scanDemoState.clients 9 (fun c => { c with wantsChat := true }), waitingQueue := rest } 9 pid 0) ∨
    ((∀ x ∈ scanDemoState.waitingQueue, validEntry scanDemoState.clients x = false) ∧
      handleReady scanDemoState 9 0 =
        send { scanDemoState with clients := updateClient scanDemoState.clients 9 (fun c => { c with wantsChat := true }), waitingQueue := [9] } 9
          (.status "Waiting for someone to join...")) :=
  ready_fifo_matching scanDemoState 9 0
    { sockOpen := true, partnerId := none, wantsChat := false, isAlive := true, connectedAt := 0, pairedAt := none }
    (by decide) (by decide) (by decide)

/-- C6: At a heartbeat tick every registered client with `isAlive = false`
is removed from the registry and, when it was paired with a live client
whose socket is open (and no other client points at it), that partner
receives `partner_left`; every client with `isAlive = true` survives with
`isAlive` reset to `false` and is probed; hence a client that never
acknowledges is gone after at most two consecutive ticks. -/
theorem heartbeat_reaping (s : ServerState) (t1 t2 : Nat)
    (hkeys : (s.clients.map Prod.fst).Nodup) :
    (∀ cid c, getClient s.clients cid = some c → c.isAlive = false →
      getClient (heartbeatTick s t1).clients cid = none) ∧
    (∀ cid c, getClient s.clients cid = some c → c.isAlive = true →
      (∃ c', getClient (heartbeatTick s t1).clients cid = some c' ∧
        c'.isAlive = false) ∧ cid ∈ (heartbeatTick s t1).pings) ∧
    (∀ cid c, getClient s.clients cid = some c →
      getClient (heartbeatTick (heartbeatTick s t1) t2).clients cid = none) ∧
    (∀ cid pid c p, getClient s.clients cid = some c → c.isAlive = false →
      c.partnerId = some pid → getClient s.clients pid = some p →
      p.isAlive = true → p.sockOpen = true →
      (∀ d cd, getClient s.clients d = some cd → cd.partnerId = some cid → d = pid) →
      (pid, OutMsg.partnerLeft) ∈ (heartbeatTick s t1).outbox) := by
  simp only [heartbeatTick]
  refine ⟨?_, ?_, ?_, ?_⟩
  · intro cid c hc hdead
    exact tickLoop_removes_dead _ t1 hkeys (getClient_some_mem_keys hc) hc hdead
  · intro cid c hc halive
    exact tickLoop_alive_probed _ t1 hkeys (getClient_some_mem_keys hc) hc halive
  · intro cid c hc
    cases hal : c.isAlive with
    | false =>
        exact tickLoop_no_new _ t2
          (tickLoop_removes_dead _ t1 hkeys (getClient_some_mem_keys hc) hc hal)
    | true =>
        obtain ⟨⟨c', hg', hA'⟩, -⟩ :=
          tickLoop_alive_probed _ t1 hkeys (getClient_some_mem_keys hc) hc hal
        exact tickLoop_removes_dead _ t2 (tickLoop_keys_nodup _ t1 hkeys)
          (getClient_some_mem_keys hg') hg' hA'
  · intro cid pid c p hc hdead hcp hp hpalive hopen huniq
    exact tickLoop_partner_notified _ t1 hkeys hkeys (getClient_some_mem_keys hc)
      hc hdead hcp hp hopen (Or.inl hpalive) huniq

theorem heartbeat_reaping_witness :
    (∀ cid c, getClient heartbeatDemoState.clients cid = some c → c.isAlive = false →
      getClient (heartbeatTick heartbeatDemoState 0).clients cid = none) ∧
    (∀ cid c, getClient heartbeatDemoState.clients cid = some c → c.isAlive = true →
      (∃ c', getClient (heartbeatTick heartbeatDemoState 0).clients cid = some c' ∧
        c'.isAlive = false) ∧ cid ∈ (heartbeatTick heartbeatDemoState 0).pings) ∧
    (∀ cid c, getClient heartbeatDemoState.clients cid = some c →
      getClient (heartbeatTick (heartbeatTick heartbeatDemoState 0) 30).clients cid = none) ∧
    (∀ cid pid c p, getClient heartbeatDemoState.clients cid = some c →
      c.isAlive = false → c.partnerId = some pid →
      getClient heartbeatDemoState.clients pid = some p →
      p.isAlive = true → p.sockOpen = true →
      (∀ d cd, getClient heartbeatDemoState.clients d = some cd →
        cd.partnerId = some cid → d = pid) →
      (pid, OutMsg.partnerLeft) ∈ (heartbeatTick heartbeatDemoState 0).outbox) :=
  heartbeat_reaping heartbeatDemoState 0 30 (by decide)

end Ogemle
